import Mathlib

/-!
Verification of the worker-side control plane of the phala-blockchain
repository (worker state machine, gatekeeper engine, key lifecycle
helpers).  The definitions below are shallow embeddings of the Rust
sources:

* standalone/pruntime/enclave/src/system/gk.rs   (gatekeeper engine and
  its tokenomic module, fixed-point 64.64 arithmetic);
* crates/phactory/src/system/mod.rs              (worker state machine,
  challenge cache, master-key history, gatekeeper status query).

Machine integers are modelled as Nat.  The fixed-point type U64F64 is
modelled by its raw bit pattern (a Nat; the represented value is
bits / 2^64), with truncating multiplication, division and square root
exactly as the fixed / fixed-sqrt crates compute them.  Rust functions
that can panic are modelled with Option (none = panic / abort).
-/

/-! ### Fixed-point 64.64 arithmetic (gk.rs, mod tokenomic) -/

/-- U64F64 bit pattern of the integer n (FixedPoint::from_num). -/
def fp (n : Nat) : Nat := n * 2 ^ 64

/-- Truncating fixed-point multiplication on U64F64 bit patterns. -/
def fpMul (a b : Nat) : Nat := a * b / 2 ^ 64

/-- Truncating fixed-point division on U64F64 bit patterns. -/
def fpDiv (a b : Nat) : Nat := a * 2 ^ 64 / b

/-- Fixed-point square root: value sqrt(b/2^64) has bit pattern
floor (sqrt (b * 2^64)) (the fixed-sqrt crate). -/
def fpSqrt (a : Nat) : Nat := Nat.sqrt (a * 2 ^ 64)

/-- conf_score from gk.rs: 1..3 -> 1.0, 4 -> 0.8, 5 -> 0.7, else 0.
The source divides a FixedPoint by an integer, which divides the raw
bits. -/
def conf_score (level : Nat) : Nat :=
  if level = 1 ∨ level = 2 ∨ level = 3 then fp 1
  else if level = 4 then fp 8 / 10
  else if level = 5 then fp 7 / 10
  else fp 0

/-- TokenomicInfo from gk.rs (all fixed-point fields carried as raw
U64F64 bit patterns; timestamps and iteration counters as Nat). -/
structure TokenomicInfo where
  v : Nat
  v_last : Nat
  v_update_at : Nat
  iteration_last : Nat
  challenge_time_last : Nat
  p_bench : Nat
  p_instant : Nat
  confidence_level : Nat
deriving DecidableEq

/-- The Default instance of TokenomicInfo (all fields zero). -/
def tokenomicDefault : TokenomicInfo :=
  { v := 0, v_last := 0, v_update_at := 0, iteration_last := 0,
    challenge_time_last := 0, p_bench := 0, p_instant := 0,
    confidence_level := 0 }

/-- Tokenomic parameters (gk.rs, struct Params). -/
structure Params where
  pha_rate : Nat
  rho : Nat
  slash_rate : Nat
  budget_per_sec : Nat
  v_max : Nat
  alpha : Nat
deriving DecidableEq

/-- test_params from gk.rs. -/
def test_params : Params :=
  { pha_rate := fp 1
    rho := fp 10002 / 10000
    slash_rate := fp 1 / 1000
    budget_per_sec := fp 10
    v_max := fp 30000
    alpha := fp 287 / 10000 }

/-- share from gk.rs: sqrt(v^2 + (2 p_instant conf_score(level))^2). -/
def TokenomicInfo.share (t : TokenomicInfo) : Nat :=
  fpSqrt (fpMul t.v t.v +
    fpMul (fpMul (fpMul (fp 2) t.p_instant) (conf_score t.confidence_level))
          (fpMul (fpMul (fp 2) t.p_instant) (conf_score t.confidence_level)))

/-- update_p_instant from gk.rs. -/
def TokenomicInfo.update_p_instant (t : TokenomicInfo) (now iterations : Nat) :
    TokenomicInfo :=
  if now ≤ t.challenge_time_last then t
  else
    { t with p_instant := (
        min (fpDiv (fp (iterations - t.iteration_last))
               (fp (now - t.challenge_time_last) / 1000) * 6)
            (fpDiv (fpMul t.p_bench (fp 12)) (fp 10))) }

/-- update_v_idle from gk.rs (case 1: idle, no event). -/
def TokenomicInfo.update_v_idle (t : TokenomicInfo) (params : Params) :
    TokenomicInfo :=
  { t with v := (
      min
        (t.v + fpMul
          (if t.p_bench = fp 0 then fp 1 else fpDiv t.p_instant t.p_bench)
          (fpMul (params.rho - fp 1) t.v +
            fpDiv (fpDiv (fpMul params.alpha t.p_bench + fp 15) params.pha_rate)
              (fp 365)))
        params.v_max) }

/-- update_v_heartbeat from gk.rs (case 2): returns the updated record
and the payout. -/
def TokenomicInfo.update_v_heartbeat (t : TokenomicInfo) (params : Params)
    (sum_share now_ms : Nat) : TokenomicInfo × Nat :=
  if sum_share = fp 0 then (t, fp 0)
  else if t.v < t.v_last then (t, fp 0)
  else if now_ms ≤ t.v_update_at then (t, fp 0)
  else
    let dv := t.v - t.v_last
    let dt := fp (now_ms - t.v_update_at) / 1000
    let budget := fpMul params.budget_per_sec dt
    let w := min (max dv 0) (fpMul (fpDiv t.share sum_share) budget)
    ({ t with v := t.v - w, v_last := t.v - w, v_update_at := now_ms }, w)

/-- update_v_slash from gk.rs. -/
def TokenomicInfo.update_v_slash (t : TokenomicInfo) (params : Params) :
    TokenomicInfo :=
  { t with v := t.v - fpMul t.v params.slash_rate }

/-- Spec-side formulation of the heartbeat payout rule, written from the
spec text (section 4.2.1): guards sum_share=0 or v<v_last or
now_ms ≤ v_update_at return 0 and change nothing; otherwise
dv = v - v_last, dt = (now_ms - v_update_at)/1000,
budget = budget_per_sec * dt, w = min(max(dv,0), share/sum_share * budget),
then v -= w, v_last = v, v_update_at = now_ms, and w is returned. -/
def updateVHeartbeatOfSpec (t : TokenomicInfo) (params : Params)
    (sum_share now_ms : Nat) : TokenomicInfo × Nat :=
  if sum_share = 0 ∨ t.v < t.v_last ∨ now_ms ≤ t.v_update_at then (t, 0)
  else
    let dv := t.v - t.v_last
    let dt := fp (now_ms - t.v_update_at) / 1000
    let budget := fpMul params.budget_per_sec dt
    let w := min (max dv 0) (fpMul (fpDiv t.share sum_share) budget)
    ({ t with v := t.v - w, v_last := t.v - w, v_update_at := now_ms }, w)

/-- **C4.** update_v_heartbeat behaves exactly as the spec formula says:
it returns 0 and leaves the record unchanged when a guard fires, and
otherwise returns w = min(max(v - v_last, 0), share/sum_share * budget)
with budget = budget_per_sec * dt and dt = (now_ms - v_update_at)/1000,
subtracting w from v, setting v_last to the new v and v_update_at to
now_ms.  In every case the payout (a Nat, hence non-negative) is at most
share/sum_share * (budget_per_sec * dt) in exact 64.64 fixed-point
arithmetic. -/
theorem update_v_heartbeat_matches_spec (t : TokenomicInfo) (params : Params)
    (sum_share now_ms : Nat) :
    t.update_v_heartbeat params sum_share now_ms
      = updateVHeartbeatOfSpec t params sum_share now_ms ∧
    (t.update_v_heartbeat params sum_share now_ms).2
      ≤ fpMul (fpDiv t.share sum_share)
          (fpMul params.budget_per_sec (fp (now_ms - t.v_update_at) / 1000)) := by
  have hfp0 : fp 0 = 0 := by simp [fp]
  constructor
  · unfold TokenomicInfo.update_v_heartbeat updateVHeartbeatOfSpec
    rw [hfp0]
    by_cases h1 : sum_share = 0
    · rw [if_pos h1, if_pos (Or.inl h1)]
    · by_cases h2 : t.v < t.v_last
      · rw [if_neg h1, if_pos h2, if_pos (Or.inr (Or.inl h2))]
      · by_cases h3 : now_ms ≤ t.v_update_at
        · rw [if_neg h1, if_neg h2, if_pos h3,
            if_pos (Or.inr (Or.inr h3))]
        · rw [if_neg h1, if_neg h2, if_neg h3,
            if_neg (by simp [h1, h2, h3])]
  · unfold TokenomicInfo.update_v_heartbeat
    rw [hfp0]
    by_cases h1 : sum_share = 0
    · rw [if_pos h1]
      exact Nat.zero_le _
    · by_cases h2 : t.v < t.v_last
      · rw [if_neg h1, if_pos h2]
        exact Nat.zero_le _
      · by_cases h3 : now_ms ≤ t.v_update_at
        · rw [if_neg h1, if_neg h2, if_pos h3]
          exact Nat.zero_le _
        · rw [if_neg h1, if_neg h2, if_neg h3]
          exact Nat.min_le_right _ _

/-! ### Worker state machine (crates/phactory/src/system/mod.rs) -/

/-- Block context: block height and wall clock in ms. -/
structure BlockInfo where
  block_number : Nat
  now_ms : Nat
deriving DecidableEq

/-- MiningState from mod.rs. -/
inductive MiningState where
  | Mining
  | Paused
deriving DecidableEq

/-- MiningInfo from mod.rs. -/
structure MiningInfo where
  session_id : Nat
  state : MiningState
  start_time : Nat
  start_iter : Nat
deriving DecidableEq

/-- BenchState from mod.rs. -/
structure BenchState where
  start_block : Nat
  start_time : Nat
  start_iter : Nat
  duration : Nat
deriving DecidableEq

/-- WorkerState from mod.rs.  Worker public keys are modelled as Nat;
hashed_id is the 256-bit BLAKE2 hash of the pubkey, supplied by a hash
parameter where the source calls blake2_256. -/
structure WorkerState where
  pubkey : Nat
  hashed_id : Nat
  registered : Bool
  bench_state : Option BenchState
  mining_state : Option MiningInfo
deriving DecidableEq

/-- WorkerState::new (the blake2_256 call is the hash parameter). -/
def WorkerState.new (hash : Nat → Nat) (pubkey : Nat) : WorkerState :=
  { pubkey := pubkey, hashed_id := hash pubkey, registered := false,
    bench_state := none, mining_state := none }

/-- WorkerEvent from phala_types::messaging. -/
inductive WorkerEvent where
  | Registered (confidence_level : Nat)
  | BenchStart (duration : Nat)
  | BenchScore (score : Nat)
  | MiningStart (session_id : Nat) (init_v : Nat)
  | MiningStop
  | MiningEnterUnresponsive
  | MiningExitUnresponsive
deriving DecidableEq

/-- WorkerEventWithKey from phala_types::messaging. -/
structure WorkerEventWithKey where
  pubkey : Nat
  event : WorkerEvent
deriving DecidableEq

/-- HeartbeatChallenge from phala_types::messaging (seed and
online_target are 256-bit integers; U256 comparison is numeric). -/
structure HeartbeatChallenge where
  seed : Nat
  online_target : Nat
deriving DecidableEq

/-- SystemEvent from phala_types::messaging. -/
inductive SystemEvent where
  | WorkerEvent (e : WorkerEventWithKey)
  | HeartbeatChallenge (c : HeartbeatChallenge)
deriving DecidableEq

/-- One invocation of the WorkerStateMachineCallback capability
interface.  bench_iterations is modelled by the iters parameter of the
functions below (the callback reads a counter that is constant during
one event). -/
inductive CallbackCall where
  | benchResume
  | benchPause
  | benchReport (start_time : Nat) (iterations : Nat)
  | heartbeat (session_id : Nat) (block_num : Nat) (block_time : Nat)
      (iterations : Nat)
deriving DecidableEq

/-- need_pause from mod.rs. -/
def WorkerState.need_pause (s : WorkerState) : Bool :=
  s.bench_state.isNone && s.mining_state.isNone

/-- handle_heartbeat_challenge from mod.rs: on a challenge hit
(hashed_id XOR seed ≤ online_target) the callback emits a heartbeat
carrying session_id, block number, block time and
bench_iterations() - start_iter. -/
def WorkerState.handle_heartbeat_challenge (iters : Nat) (block : BlockInfo)
    (s : WorkerState) (c : HeartbeatChallenge) :
    WorkerState × List CallbackCall :=
  if !s.registered then (s, [])
  else
    match s.mining_state with
    | none => (s, [])
    | some mi =>
      if mi.state = MiningState.Paused then (s, [])
      else if Nat.xor s.hashed_id c.seed ≤ c.online_target then
        (s, [CallbackCall.heartbeat mi.session_id block.block_number
              block.now_ms (iters - mi.start_iter)])
      else (s, [])

/-- process_event from mod.rs: dispatch of one SystemEvent on the worker
state machine, returning the new state and the callback invocations. -/
def WorkerState.process_event (iters : Nat) (block : BlockInfo)
    (s : WorkerState) (ev : SystemEvent) : WorkerState × List CallbackCall :=
  match ev with
  | SystemEvent.WorkerEvent evt =>
    if evt.pubkey ≠ s.pubkey then (s, [])
    else
      match evt.event with
      | WorkerEvent.Registered _ => ({ s with registered := true }, [])
      | WorkerEvent.BenchStart duration =>
          ({ s with bench_state := (some
              { start_block := block.block_number, start_time := block.now_ms,
                start_iter := iters, duration := duration }) },
           [CallbackCall.benchResume])
      | WorkerEvent.BenchScore _ => (s, [])
      | WorkerEvent.MiningStart session_id _ =>
          ({ s with mining_state := (some
              { session_id := session_id, state := MiningState.Mining,
                start_time := block.now_ms, start_iter := iters }) },
           [CallbackCall.benchResume])
      | WorkerEvent.MiningStop =>
          let s2 := { s with mining_state := none }
          (s2, if s2.need_pause then [CallbackCall.benchPause] else [])
      | WorkerEvent.MiningEnterUnresponsive =>
          match s.mining_state with
          | some mi =>
            if mi.state = MiningState.Mining then
              ({ s with mining_state := some ({ mi with state := MiningState.Paused }) }, [])
            else (s, [])
          | none => (s, [])
      | WorkerEvent.MiningExitUnresponsive =>
          match s.mining_state with
          | some mi =>
            if mi.state = MiningState.Paused then
              ({ s with mining_state := some ({ mi with state := MiningState.Mining }) }, [])
            else (s, [])
          | none => (s, [])
  | SystemEvent.HeartbeatChallenge c =>
      s.handle_heartbeat_challenge iters block c

/-- on_block_processed from mod.rs: benchmark completion at block end. -/
def WorkerState.on_block_processed (iters : Nat) (block : BlockInfo)
    (s : WorkerState) : WorkerState × List CallbackCall :=
  match s.bench_state with
  | some bs =>
    if bs.duration ≤ block.block_number - bs.start_block then
      let s2 := { s with bench_state := none }
      (s2, CallbackCall.benchReport bs.start_time (iters - bs.start_iter) ::
            (if s2.need_pause then [CallbackCall.benchPause] else []))
    else (s, [])
  | none => (s, [])

/-- **C5.** A HeartbeatChallenge leaves the worker state unchanged and
invokes callback.heartbeat exactly when registered holds, mining_state
is Some with state Mining (not Paused), and hashed_id XOR seed ≤
online_target (numeric comparison of 256-bit values); the emitted
heartbeat carries the session_id, the current block number, the block
timestamp and bench_iterations() - start_iter.  In every other case no
callback is invoked. -/
theorem heartbeat_challenge_hit_iff (iters : Nat) (block : BlockInfo)
    (s : WorkerState) (c : HeartbeatChallenge) :
    WorkerState.process_event iters block s (SystemEvent.HeartbeatChallenge c)
      = (s,
        match s.mining_state with
        | none => []
        | some mi =>
          if s.registered = true ∧ mi.state = MiningState.Mining ∧
              Nat.xor s.hashed_id c.seed ≤ c.online_target then
            [CallbackCall.heartbeat mi.session_id block.block_number
              block.now_ms (iters - mi.start_iter)]
          else []) := by
  cases hms : s.mining_state with
  | none =>
    cases hreg : s.registered <;>
      simp [WorkerState.process_event, WorkerState.handle_heartbeat_challenge,
        hms, hreg]
  | some mi =>
    cases hreg : s.registered with
    | false =>
      simp [WorkerState.process_event, WorkerState.handle_heartbeat_challenge,
        hms, hreg]
    | true =>
      cases hst : mi.state with
      | Paused =>
        simp [WorkerState.process_event, WorkerState.handle_heartbeat_challenge,
          hms, hreg, hst]
      | Mining =>
        by_cases hx : Nat.xor s.hashed_id c.seed ≤ c.online_target <;>
          simp [WorkerState.process_event,
            WorkerState.handle_heartbeat_challenge, hms, hreg, hst, hx]

/-! ### System state slice (crates/phactory/src/system/mod.rs):
challenge cache, master-key history, gatekeeper status. -/

/-- WorkerKeyChallengePayload from phala_types. -/
structure WorkerKeyChallengePayload where
  block_number : Nat
  now : Nat
  nonce : Nat
deriving DecidableEq

/-- WorkerKeyChallenge from phala_types (signature as opaque Nat). -/
structure WorkerKeyChallenge where
  payload : WorkerKeyChallengePayload
  signature : Nat
deriving DecidableEq

/-- An sr25519 keypair, modelled by its public-key bytes (the claims
only ever inspect the public part and compare keys). -/
structure Sr25519Pair where
  public_bytes : List Nat
deriving DecidableEq

/-- The phactory gk::Gatekeeper engine is not under src/ in this
repository; gatekeeper_status only queries its registered_on_chain
flag.  Modelled from the spec: the engine carries a boolean stating
whether it is registered on-chain. -/
structure GkHandle where
  registered_on_chain : Bool
deriving DecidableEq

/-- The slice of struct System (mod.rs) that the verified operations
read and write.  sealed_history stands for the content of the sealed
master-key file (sealing I/O elided); checkpoints_exist for the
presence of checkpoint files under storage_path. -/
structure PhactorySystem where
  last_challenge : Option WorkerKeyChallengePayload
  master_key : Option Sr25519Pair
  master_key_history : List Sr25519Pair
  sealed_history : List Sr25519Pair
  checkpoints_exist : Bool
  gatekeeper : Option GkHandle
deriving DecidableEq

/-- verify_worker_key_challenge from mod.rs.  verify is the
identity-key signature check (sr25519 verification is an external
primitive; it is passed as a function of the signature and payload). -/
def PhactorySystem.verify_worker_key_challenge
    (verify : Nat → WorkerKeyChallengePayload → Bool) (s : PhactorySystem)
    (challenge : WorkerKeyChallenge) : Bool × PhactorySystem :=
  match s.last_challenge with
  | none => (false, s)
  | some p =>
    if p ≠ challenge.payload then (false, s)
    else (verify challenge.signature challenge.payload,
          { s with last_challenge := none })

/-- Result of handle_master_key_history: ok = normal return,
aborted = the source panics after removing checkpoints (process
restart required). -/
inductive MasterKeyOutcome where
  | ok (s : PhactorySystem)
  | aborted (s : PhactorySystem)
deriving DecidableEq

/-- handle_master_key_history from mod.rs.  The [] inner branch is
unreachable: the guard makes new_history longer than an existing list,
hence nonempty. -/
def PhactorySystem.handle_master_key_history (s : PhactorySystem)
    (new_history : List Sr25519Pair) (need_restart : Bool) :
    MasterKeyOutcome :=
  if new_history.length ≤ s.master_key_history.length then
    MasterKeyOutcome.ok s
  else
    match new_history with
    | [] => MasterKeyOutcome.ok s
    | first_key :: _ =>
      let s1 := { s with sealed_history := new_history,
                         master_key_history := new_history }
      if s1.master_key = none then
        let s2 := { s1 with master_key := some first_key }
        if need_restart then
          MasterKeyOutcome.aborted ({ s2 with checkpoints_exist := false })
        else MasterKeyOutcome.ok s2
      else MasterKeyOutcome.ok s1

/-- One lowercase hex digit (hex crate alphabet 0-9a-f). -/
def hexDigit (n : Nat) : Char :=
  if n < 10 then Char.ofNat (48 + n) else Char.ofNat (87 + n)

/-- hex::encode over a byte list (bytes are u8, i.e. < 256). -/
def hexEncode (bytes : List Nat) : String :=
  String.mk (bytes.foldr
    (fun b acc => hexDigit (b / 16 % 16) :: hexDigit (b % 16) :: acc) [])

/-- GatekeeperRole from phactory_api. -/
inductive GatekeeperRole where
  | None
  | Dummy
  | Active
deriving DecidableEq

/-- GatekeeperStatus from phactory_api. -/
structure GatekeeperStatus where
  role : GatekeeperRole
  master_public_key : String
deriving DecidableEq

/-- gatekeeper_status from mod.rs. -/
def PhactorySystem.gatekeeper_status (s : PhactorySystem) :
    GatekeeperStatus :=
  let active := match s.gatekeeper with
    | some gk => gk.registered_on_chain
    | none => false
  let has_key := s.master_key.isSome
  { role := (match has_key, active with
      | true, true => GatekeeperRole.Active
      | true, false => GatekeeperRole.Dummy
      | false, _ => GatekeeperRole.None)
    master_public_key := (match s.master_key with
      | some k => hexEncode k.public_bytes
      | none => "") }

/-- **C2 counterexample.** The claim says verify_worker_key_challenge
clears the cached challenge on a rejection caused by a payload
mismatch.  At this concrete input the payload (9,9,9) differs from the
cached (1,2,3): the call is rejected, yet the cache still holds
(1,2,3) afterwards — it is not cleared. -/
theorem verify_challenge_mismatch_keeps_cache :
    (PhactorySystem.verify_worker_key_challenge (fun _ _ => true)
        { last_challenge := some { block_number := 1, now := 2, nonce := 3 },
          master_key := none, master_key_history := [], sealed_history := [],
          checkpoints_exist := true, gatekeeper := none }
        { payload := { block_number := 9, now := 9, nonce := 9 },
          signature := 0 }).1 = false ∧
    (PhactorySystem.verify_worker_key_challenge (fun _ _ => true)
        { last_challenge := some { block_number := 1, now := 2, nonce := 3 },
          master_key := none, master_key_history := [], sealed_history := [],
          checkpoints_exist := true, gatekeeper := none }
        { payload := { block_number := 9, now := 9, nonce := 9 },
          signature := 0 }).2.last_challenge
      = some { block_number := 1, now := 2, nonce := 3 } :=
  ⟨rfl, rfl⟩

/-- **C2 (amended).** verify_worker_key_challenge accepts iff the
payload equals the cached last_challenge and the signature verifies
under the current identity key; it clears the cache exactly when the
payload matches the cache (hence on success and on a rejection caused
by an invalid signature), and a payload mismatch or an empty cache
leaves the cache unchanged. -/
theorem verify_challenge_accept_iff
    (verify : Nat → WorkerKeyChallengePayload → Bool) (s : PhactorySystem)
    (c : WorkerKeyChallenge) :
    ((s.verify_worker_key_challenge verify c).1 = true ↔
      (s.last_challenge = some c.payload ∧
        verify c.signature c.payload = true)) ∧
    (s.verify_worker_key_challenge verify c).2.last_challenge
      = (if s.last_challenge = some c.payload then none
         else s.last_challenge) := by
  cases hl : s.last_challenge with
  | none => simp [PhactorySystem.verify_worker_key_challenge, hl]
  | some p =>
    by_cases hp : p = c.payload
    · subst hp
      simp [PhactorySystem.verify_worker_key_challenge, hl]
    · have hne : some p ≠ some c.payload := by
        intro h
        exact hp (Option.some_injective _ h)
      simp [PhactorySystem.verify_worker_key_challenge, hl, hp, hne]

/-- **C10.** When the supplied payload equals the cached
last_challenge the cache is set to None before the signature check, so
the one-shot challenge is consumed even when the result is false by an
invalid signature; and a call with a non-matching payload or an empty
cache returns false and leaves the whole state (in particular
last_challenge) unchanged. -/
theorem verify_challenge_consumed_on_match
    (verify : Nat → WorkerKeyChallengePayload → Bool) (s : PhactorySystem)
    (c : WorkerKeyChallenge) :
    (s.last_challenge = some c.payload →
      (s.verify_worker_key_challenge verify c).2.last_challenge = none) ∧
    (s.last_challenge ≠ some c.payload →
      s.verify_worker_key_challenge verify c = (false, s)) := by
  constructor
  · intro h
    simp [PhactorySystem.verify_worker_key_challenge, h]
  · intro h
    cases hl : s.last_challenge with
    | none => simp [PhactorySystem.verify_worker_key_challenge, hl]
    | some p =>
      rw [hl] at h
      have hp : p ≠ c.payload := by
        intro he
        exact h (by rw [he])
      simp [PhactorySystem.verify_worker_key_challenge, hl, hp]

/-- Witness for C10: a concrete matching call with a rejecting
verifier still consumes the cache. -/
theorem verify_challenge_consumed_on_match_witness :
    (PhactorySystem.verify_worker_key_challenge (fun _ _ => false)
        { last_challenge := some { block_number := 1, now := 2, nonce := 3 },
          master_key := none, master_key_history := [], sealed_history := [],
          checkpoints_exist := true, gatekeeper := none }
        { payload := { block_number := 1, now := 2, nonce := 3 },
          signature := 7 }).2.last_challenge = none :=
  (verify_challenge_consumed_on_match (fun _ _ => false)
      { last_challenge := some { block_number := 1, now := 2, nonce := 3 },
        master_key := none, master_key_history := [], sealed_history := [],
        checkpoints_exist := true, gatekeeper := none }
      { payload := { block_number := 1, now := 2, nonce := 3 },
        signature := 7 }).1 rfl

/-- **C6.** handle_master_key_history: a history not longer than the
existing one changes nothing; otherwise the new history is sealed and
replaces the in-memory history, and (a) if a master key was already
set, the call returns normally with no abort regardless of
need_restart, (b) if no master key was set, the head of the new
history becomes the current master key, and when need_restart is true
the checkpoints are removed and the process aborts, while with
need_restart false the call returns normally. -/
theorem handle_master_key_history_spec (s : PhactorySystem)
    (new_history : List Sr25519Pair) (need_restart : Bool) :
    (new_history.length ≤ s.master_key_history.length →
      s.handle_master_key_history new_history need_restart
        = MasterKeyOutcome.ok s) ∧
    (∀ k rest, new_history = k :: rest →
      s.master_key_history.length < new_history.length →
      (s.master_key ≠ none →
        s.handle_master_key_history new_history need_restart
          = MasterKeyOutcome.ok
              { s with
                  sealed_history := new_history,
                  master_key_history := new_history }) ∧
      (s.master_key = none →
        (need_restart = true →
          s.handle_master_key_history new_history need_restart
            = MasterKeyOutcome.aborted
                { s with
                    sealed_history := new_history,
                    master_key_history := new_history,
                    master_key := some k,
                    checkpoints_exist := false }) ∧
        (need_restart = false →
          s.handle_master_key_history new_history need_restart
            = MasterKeyOutcome.ok
                { s with
                    sealed_history := new_history,
                    master_key_history := new_history,
                    master_key := some k }))) := by
  constructor
  · intro hle
    unfold PhactorySystem.handle_master_key_history
    rw [if_pos hle]
  · intro k rest hcons hlt
    subst hcons
    have hnle : ¬ rest.length + 1 ≤ s.master_key_history.length := by
      simpa using Nat.not_le_of_lt hlt
    constructor
    · intro hmk
      cases hm : s.master_key with
      | none => exact absurd hm hmk
      | some mk0 =>
        simp [PhactorySystem.handle_master_key_history, hnle, hm]
    · intro hmk
      constructor
      · intro hr
        subst hr
        simp [PhactorySystem.handle_master_key_history, hnle, hmk]
      · intro hr
        subst hr
        simp [PhactorySystem.handle_master_key_history, hnle, hmk]

/-- Witness for C6: from an empty state, receiving a one-entry history
with need_restart = true adopts the key, removes checkpoints and
aborts. -/
theorem handle_master_key_history_witness :
    PhactorySystem.handle_master_key_history
        { last_challenge := none, master_key := none,
          master_key_history := [], sealed_history := [],
          checkpoints_exist := true, gatekeeper := none }
        [{ public_bytes := [1] }] true
      = MasterKeyOutcome.aborted
        { last_challenge := none,
          master_key := some { public_bytes := [1] },
          master_key_history := [{ public_bytes := [1] }],
          sealed_history := [{ public_bytes := [1] }],
          checkpoints_exist := false, gatekeeper := none } :=
  (((handle_master_key_history_spec
      { last_challenge := none, master_key := none,
        master_key_history := [], sealed_history := [],
        checkpoints_exist := true, gatekeeper := none }
      [{ public_bytes := [1] }] true).2
    { public_bytes := [1] } [] rfl (by decide)).2 rfl).1 rfl

/-- **C8.** Under the structural invariant that a GK engine exists
only when a master key is held (init_gatekeeper asserts
master_key.is_some before constructing the engine, and the master key
is never dropped), gatekeeper_status returns role Active iff the GK
engine exists and is registered on-chain, Dummy iff a master key is
held but the engine is not (present and) registered, and None in the
remaining cases; the returned master_public_key is the hex encoding of
the held master public key, or the empty string when no master key is
held. -/
theorem gatekeeper_status_spec (s : PhactorySystem)
    (hinv : s.gatekeeper.isSome = true → s.master_key.isSome = true) :
    (s.gatekeeper_status.role = GatekeeperRole.Active ↔
      ∃ g, s.gatekeeper = some g ∧ g.registered_on_chain = true) ∧
    (s.gatekeeper_status.role = GatekeeperRole.Dummy ↔
      (s.master_key.isSome = true ∧
        ¬ ∃ g, s.gatekeeper = some g ∧ g.registered_on_chain = true)) ∧
    (s.gatekeeper_status.role = GatekeeperRole.None ↔
      (¬ (∃ g, s.gatekeeper = some g ∧ g.registered_on_chain = true) ∧
        ¬ (s.master_key.isSome = true ∧
          ¬ ∃ g, s.gatekeeper = some g ∧ g.registered_on_chain = true))) ∧
    (∀ k, s.master_key = some k →
      s.gatekeeper_status.master_public_key = hexEncode k.public_bytes) ∧
    (s.master_key = none → s.gatekeeper_status.master_public_key = "") := by
  cases hmk : s.master_key with
  | none =>
    cases hgk : s.gatekeeper with
    | none => simp [PhactorySystem.gatekeeper_status, hmk, hgk]
    | some g =>
      exact absurd (hinv (by rw [hgk]; rfl)) (by rw [hmk]; simp)
  | some k =>
    cases hgk : s.gatekeeper with
    | none => simp [PhactorySystem.gatekeeper_status, hmk, hgk]
    | some g =>
      cases hreg : g.registered_on_chain with
      | true => simp [PhactorySystem.gatekeeper_status, hmk, hgk, hreg]
      | false => simp [PhactorySystem.gatekeeper_status, hmk, hgk, hreg]

/-- Witness for C8: a state holding a master key with a registered
engine reports role Active and the hex of the master public key. -/
theorem gatekeeper_status_spec_witness :
    PhactorySystem.gatekeeper_status
        { last_challenge := none,
          master_key := some { public_bytes := [171, 1] },
          master_key_history := [{ public_bytes := [171, 1] }],
          sealed_history := [{ public_bytes := [171, 1] }],
          checkpoints_exist := false,
          gatekeeper := some { registered_on_chain := true } }
      = { role := GatekeeperRole.Active,
          master_public_key := hexEncode [171, 1] } := by
  have h := gatekeeper_status_spec
    { last_challenge := none,
      master_key := some { public_bytes := [171, 1] },
      master_key_history := [{ public_bytes := [171, 1] }],
      sealed_history := [{ public_bytes := [171, 1] }],
      checkpoints_exist := false,
      gatekeeper := some { registered_on_chain := true } }
    (by intro _; rfl)
  have hrole := h.1.mpr ⟨{ registered_on_chain := true }, rfl, rfl⟩
  have hkey := h.2.2.2.1 { public_bytes := [171, 1] } rfl
  calc PhactorySystem.gatekeeper_status
          { last_challenge := none,
            master_key := some { public_bytes := [171, 1] },
            master_key_history := [{ public_bytes := [171, 1] }],
            sealed_history := [{ public_bytes := [171, 1] }],
            checkpoints_exist := false,
            gatekeeper := some { registered_on_chain := true } }
      = { role := (PhactorySystem.gatekeeper_status
            { last_challenge := none,
              master_key := some { public_bytes := [171, 1] },
              master_key_history := [{ public_bytes := [171, 1] }],
              sealed_history := [{ public_bytes := [171, 1] }],
              checkpoints_exist := false,
              gatekeeper := some { registered_on_chain := true } }).role,
          master_public_key := (PhactorySystem.gatekeeper_status
            { last_challenge := none,
              master_key := some { public_bytes := [171, 1] },
              master_key_history := [{ public_bytes := [171, 1] }],
              sealed_history := [{ public_bytes := [171, 1] }],
              checkpoints_exist := false,
              gatekeeper := some { registered_on_chain := true } }).master_public_key } := rfl
    _ = { role := GatekeeperRole.Active,
          master_public_key := hexEncode [171, 1] } := by rw [hrole, hkey]

/-! ### Gatekeeper engine (standalone/pruntime/enclave/src/system/gk.rs) -/

/-- HEARTBEAT_TOLERANCE_WINDOW from gk.rs. -/
def HEARTBEAT_TOLERANCE_WINDOW : Nat := 10

/-- MessageOrigin from phala_types (pallet names, worker pubkeys and
account ids modelled as Nat). -/
inductive MessageOrigin where
  | Pallet (name : Nat)
  | Contract (id : Nat)
  | Worker (pubkey : Nat)
  | AccountId (id : Nat)
  | Gatekeeper
deriving DecidableEq

/-- MessageOrigin::is_pallet. -/
def MessageOrigin.is_pallet (o : MessageOrigin) : Bool :=
  match o with
  | MessageOrigin.Pallet _ => true
  | _ => false

/-- MiningReportEvent from phala_types::messaging. -/
inductive MiningReportEvent where
  | Heartbeat (session_id : Nat) (challenge_block : Nat)
      (challenge_time : Nat) (iterations : Nat)
deriving DecidableEq

/-- SettleInfo from phala_types::messaging (v and payout as U64F64
bit patterns, as reported with to_bits). -/
structure SettleInfo where
  pubkey : Nat
  v : Nat
  payout : Nat
deriving DecidableEq

/-- MiningInfoUpdateEvent from phala_types::messaging. -/
structure MiningInfoUpdateEvent where
  block_number : Nat
  timestamp_ms : Nat
  offline : List Nat
  recovered_to_online : List Nat
  settle : List SettleInfo
deriving DecidableEq

/-- WorkerInfo from gk.rs: the GK record for one worker.  The Rust
VecDeque front is the list head. -/
structure WorkerInfo where
  state : WorkerState
  waiting_heartbeats : List Nat
  unresponsive : Bool
  tokenomic : TokenomicInfo
  heartbeat_flag : Bool
deriving DecidableEq

/-- WorkerInfo::new from gk.rs. -/
def WorkerInfo.new (hash : Nat → Nat) (pubkey : Nat) : WorkerInfo :=
  { state := WorkerState.new hash pubkey, waiting_heartbeats := [],
    unresponsive := false, tokenomic := tokenomicDefault,
    heartbeat_flag := false }

/-- The gatekeeper worker map (BTreeMap keyed by pubkey), as an
association list sorted by key. -/
abbrev Workers := List (Nat × WorkerInfo)

/-- BTreeMap::get on the worker map. -/
def findWorker (st : Workers) (k : Nat) : Option WorkerInfo :=
  (st.find? (fun p => p.1 == k)).map Prod.snd

/-- BTreeMap::get_mut followed by mutation: rewrite the entry keyed
k with f. -/
def updateWorker (st : Workers) (k : Nat) (f : WorkerInfo → WorkerInfo) :
    Workers :=
  st.map (fun p => if p.1 = k then (p.1, f p.2) else p)

/-- BTreeMap::entry(k).or_insert_with: ordered insert of a fresh
record when the key is absent. -/
def insertWorker (st : Workers) (k : Nat) (wi : WorkerInfo) : Workers :=
  match st with
  | [] => [(k, wi)]
  | p :: rest =>
    if k < p.1 then (k, wi) :: p :: rest
    else if k = p.1 then p :: rest
    else p :: insertWorker rest k wi

/-- Provenance instrumentation for report.settle entries: which case
of the gatekeeper produced the entry (keyed by the worker-map key). -/
inductive SettleTag where
  | heartbeatSettle (pubkey : Nat)
  | miningStopSettle (pubkey : Nat)
deriving DecidableEq

/-- The challenge blocks captured by the WorkerSMTracker callback:
each heartbeat(_, challenge_block, _, _) call pushes challenge_block
onto waiting_heartbeats. -/
def heartbeatBlocks (calls : List CallbackCall) : List Nat :=
  calls.filterMap (fun c =>
    match c with
    | CallbackCall.heartbeat _ block_num _ _ => some block_num
    | _ => none)

/-- process_mining_report from gk.rs.  none models the panic on a
front-of-queue mismatch; otherwise the new worker map and the settle
entries (with provenance tags) appended to the report are returned. -/
def process_mining_report (block : BlockInfo) (sum_share : Nat)
    (params : Params) (st : Workers) (origin : MessageOrigin)
    (ev : MiningReportEvent) :
    Option (Workers × List (SettleInfo × SettleTag)) :=
  match origin with
  | MessageOrigin.Worker pk =>
    match ev with
    | MiningReportEvent.Heartbeat session_id challenge_block challenge_time
        iterations =>
      match findWorker st pk with
      | none => some (st, [])
      | some wi =>
        if wi.waiting_heartbeats.head? ≠ some challenge_block then none
        else
          let wi1 := { wi with waiting_heartbeats := wi.waiting_heartbeats.tail }
          match wi1.state.mining_state with
          | none => some (updateWorker st pk (fun _ => wi1), [])
          | some mi =>
            if session_id ≠ mi.session_id then
              some (updateWorker st pk (fun _ => wi1), [])
            else
              let tok1 := (wi1.tokenomic.update_p_instant block.now_ms iterations)
              let tok2 := { tok1 with challenge_time_last := challenge_time,
                                      iteration_last := iterations }
              let wi2 := { wi1 with heartbeat_flag := true, tokenomic := tok2 }
              if wi2.unresponsive then
                some (updateWorker st pk (fun _ => wi2), [])
              else
                let r := tok2.update_v_heartbeat params sum_share block.now_ms
                let wi3 := { wi2 with tokenomic := r.1 }
                some (updateWorker st pk (fun _ => wi3),
                  [({ pubkey := pk, v := r.1.v, payout := r.2 },
                    SettleTag.heartbeatSettle pk)])
  | _ => some (st, [])

/-- The replay step of process_system_event: run the worker state
machine on every record with the WorkerSMTracker callback (which
supplies bench_iterations() = 0 and captures heartbeats into
waiting_heartbeats). -/
def replayEvent (block : BlockInfo) (ev : SystemEvent) (st : Workers) :
    Workers :=
  st.map (fun p =>
    (p.1,
      { p.2 with
          state := (WorkerState.process_event 0 block p.2.state ev).1,
          waiting_heartbeats := p.2.waiting_heartbeats ++
            heartbeatBlocks (WorkerState.process_event 0 block p.2.state ev).2 }))

/-- process_system_event from gk.rs: origin check, lazy insert on
Registered, replay on all workers, then the per-event economic
side-effects on the matching worker. -/
def process_system_event (hash : Nat → Nat) (block : BlockInfo)
    (st : Workers) (origin : MessageOrigin) (ev : SystemEvent) :
    Workers × List (SettleInfo × SettleTag) :=
  if !origin.is_pallet then (st, [])
  else
    let st1 := match ev with
      | SystemEvent.WorkerEvent e =>
        match e.event with
        | WorkerEvent.Registered _ => insertWorker st e.pubkey (WorkerInfo.new hash e.pubkey)
        | _ => st
      | _ => st
    let st2 := replayEvent block ev st1
    match ev with
    | SystemEvent.WorkerEvent e =>
      match findWorker st2 e.pubkey with
      | none => (st2, [])
      | some w =>
        match e.event with
        | WorkerEvent.Registered info =>
            (updateWorker st2 e.pubkey (fun w2 =>
              { w2 with tokenomic :=
                  { w2.tokenomic with confidence_level := info } }), [])
        | WorkerEvent.BenchStart _ => (st2, [])
        | WorkerEvent.BenchScore score =>
            (updateWorker st2 e.pubkey (fun w2 =>
              { w2 with tokenomic :=
                  { w2.tokenomic with p_bench := fp score } }), [])
        | WorkerEvent.MiningStart _ init_v =>
            (updateWorker st2 e.pubkey (fun w2 =>
              { w2 with unresponsive := false, tokenomic :=
                  { v := init_v, v_last := init_v,
                    v_update_at := block.now_ms, iteration_last := 0,
                    challenge_time_last := block.now_ms,
                    p_bench := w2.tokenomic.p_bench,
                    p_instant := w2.tokenomic.p_bench,
                    confidence_level := w2.tokenomic.confidence_level } }), [])
        | WorkerEvent.MiningStop =>
            (st2, [({ pubkey := w.state.pubkey, v := w.tokenomic.v,
                      payout := 0 },
                    SettleTag.miningStopSettle e.pubkey)])
        | WorkerEvent.MiningEnterUnresponsive => (st2, [])
        | WorkerEvent.MiningExitUnresponsive => (st2, [])
    | SystemEvent.HeartbeatChallenge _ => (st2, [])

/-- One message drained by the gatekeeper select loop. -/
inductive GKMessage where
  | mining (origin : MessageOrigin) (ev : MiningReportEvent)
  | system (origin : MessageOrigin) (ev : SystemEvent)
deriving DecidableEq

/-- Dispatch of one drained message (the select loop body). -/
def processOneMessage (hash : Nat → Nat) (block : BlockInfo)
    (sum_share : Nat) (params : Params) (st : Workers) (m : GKMessage) :
    Option (Workers × List (SettleInfo × SettleTag)) :=
  match m with
  | GKMessage.mining o ev => process_mining_report block sum_share params st o ev
  | GKMessage.system o ev => some (process_system_event hash block st o ev)

/-- The select loop: drain the messages of the block in
sender-sequence order, accumulating report.settle entries; none
propagates a panic. -/
def processMessageList (hash : Nat → Nat) (block : BlockInfo)
    (sum_share : Nat) (params : Params) (st : Workers)
    (msgs : List GKMessage) :
    Option (Workers × List (SettleInfo × SettleTag)) :=
  match msgs with
  | [] => some (st, [])
  | m :: rest =>
    match processOneMessage hash block sum_share params st m with
    | none => none
    | some r =>
      match processMessageList hash block sum_share params r.1 rest with
      | none => none
      | some r2 => some (r2.1, r.2 ++ r2.2)

/-- block_post_process from gk.rs, for one worker record: run
on_block_processed with the tracker (iterations 0, captured
heartbeats appended), then the five-case offline / recovery /
economic bookkeeping.  Returns the new record and the entries this
worker appends to report.offline and report.recovered_to_online. -/
def postProcessWorker (block : BlockInfo) (params : Params)
    (wi : WorkerInfo) : WorkerInfo × List Nat × List Nat :=
  let r0 := wi.state.on_block_processed 0 block
  let wi1 := { wi with
      state := r0.1,
      waiting_heartbeats := wi.waiting_heartbeats ++ heartbeatBlocks r0.2 }
  match wi1.state.mining_state with
  | none => (wi1, [], [])
  | some _ =>
    if wi1.unresponsive then
      if wi1.heartbeat_flag then
        -- case 5: unresponsive, successful heartbeat: recover, no
        -- slash and no idle update
        ({ wi1 with unresponsive := false }, [], [wi1.state.pubkey])
      else
        -- case 4: still unresponsive, no heartbeat
        ({ wi1 with tokenomic := wi1.tokenomic.update_v_slash params }, [], [])
    else
      match wi1.waiting_heartbeats.head? with
      | some hb_sent_at =>
        if HEARTBEAT_TOLERANCE_WINDOW < block.block_number - hb_sent_at then
          -- case 3: idle, heartbeat failed: report offline and slash
          ({ wi1 with
              unresponsive := true,
              tokenomic := wi1.tokenomic.update_v_slash params },
           [wi1.state.pubkey], [])
        else if wi1.heartbeat_flag then (wi1, [], [])
        else ({ wi1 with tokenomic := wi1.tokenomic.update_v_idle params }, [], [])
      | none =>
        if wi1.heartbeat_flag then (wi1, [], [])
        else ({ wi1 with tokenomic := wi1.tokenomic.update_v_idle params }, [], [])

/-- block_post_process over the whole map in iteration order. -/
def block_post_process (block : BlockInfo) (params : Params)
    (st : Workers) : Workers × List Nat × List Nat :=
  match st with
  | [] => ([], [], [])
  | (k, wi) :: rest =>
    let r := postProcessWorker block params wi
    let rr := block_post_process block params rest
    ((k, r.1) :: rr.1, r.2.1 ++ rr.2.1, r.2.2 ++ rr.2.2)

/-- Gatekeeper::process_messages for one block: compute sum_share,
reset every heartbeat_flag, drain the messages, run post-block
bookkeeping and assemble the MiningInfoUpdateEvent (with the
provenance tags of its settle entries alongside).  none models the
heartbeat panic. -/
def processBlock (hash : Nat → Nat) (params : Params) (block : BlockInfo)
    (st : Workers) (msgs : List GKMessage) :
    Option (Workers × MiningInfoUpdateEvent × List SettleTag) :=
  let sum_share := (st.map (fun p => p.2.tokenomic.share)).sum
  let st0 := st.map (fun p => (p.1, { p.2 with heartbeat_flag := false }))
  match processMessageList hash block sum_share params st0 msgs with
  | none => none
  | some r =>
    let rr := block_post_process block params r.1
    some (rr.1,
      { block_number := block.block_number, timestamp_ms := block.now_ms,
        offline := rr.2.1, recovered_to_online := rr.2.2,
        settle := r.2.map Prod.fst },
      r.2.map Prod.snd)

/-! ### Map lemmas for the gatekeeper worker map -/

theorem findWorker_update_self (st : Workers) (k : Nat)
    (f : WorkerInfo → WorkerInfo) (wi : WorkerInfo)
    (h : findWorker st k = some wi) :
    findWorker (updateWorker st k f) k = some (f wi) := by
  induction st with
  | nil => simp [findWorker] at h
  | cons p rest ih =>
    cases hb : (p.1 == k) with
    | true =>
      have hp : p.1 = k := by simpa using hb
      simp [findWorker, updateWorker, List.find?, hb, hp] at h ⊢
      rw [h]
    | false =>
      have hp : ¬ p.1 = k := by simpa using hb
      simp only [findWorker, updateWorker, List.map_cons, List.find?,
        hb, if_neg hp] at h ⊢
      exact ih h

theorem findWorker_update_other (st : Workers) (pk k : Nat)
    (f : WorkerInfo → WorkerInfo) (hne : k ≠ pk) :
    findWorker (updateWorker st pk f) k = findWorker st k := by
  induction st with
  | nil => simp [findWorker, updateWorker]
  | cons p rest ih =>
    by_cases hp : p.1 = pk
    · have hb : (p.1 == k) = false := by
        simp
        rw [hp]
        exact fun he => hne he.symm
      simp only [findWorker, updateWorker, List.map_cons, List.find?,
        if_pos hp, hb]
      exact ih
    · have hkeq : ((if p.1 = pk then (p.1, f p.2) else p) : Nat × WorkerInfo)
          = p := by rw [if_neg hp]
      cases hb : (p.1 == k) with
      | true =>
        simp [findWorker, updateWorker, List.find?, hb, hkeq, if_neg hp]
      | false =>
        simp only [findWorker, updateWorker, List.map_cons, List.find?,
          if_neg hp, hb]
        exact ih

theorem findWorker_insert_other (st : Workers) (pk k : Nat)
    (wi : WorkerInfo) (hne : k ≠ pk) :
    findWorker (insertWorker st pk wi) k = findWorker st k := by
  have hbk : (pk == k) = false := by
    simp
    exact fun he => hne he.symm
  induction st with
  | nil =>
    simp only [insertWorker, findWorker, List.find?, hbk]
  | cons p rest ih =>
    simp only [insertWorker]
    by_cases h1 : pk < p.1
    · rw [if_pos h1]
      simp only [findWorker, List.find?, hbk]
    · rw [if_neg h1]
      by_cases h2 : pk = p.1
      · rw [if_pos h2]
      · rw [if_neg h2]
        cases hb : (p.1 == k) with
        | true => simp [findWorker, List.find?, hb]
        | false =>
          simp only [findWorker, List.find?, hb]
          exact ih

theorem findWorker_map_fixed (st : Workers)
    (g : Nat × WorkerInfo → Nat × WorkerInfo)
    (k : Nat) (hkeys : ∀ p, (g p).1 = p.1)
    (hfix : ∀ p ∈ st, p.1 = k → g p = p) :
    findWorker (st.map g) k = findWorker st k := by
  induction st with
  | nil => simp [findWorker]
  | cons p rest ih =>
    cases hb : (p.1 == k) with
    | true =>
      have hp : p.1 = k := by simpa using hb
      have hgp : g p = p := hfix p (by simp) hp
      simp only [List.map_cons, findWorker, List.find?, hgp, hb]
    | false =>
      have hgb : ((g p).1 == k) = false := by rw [hkeys p]; exact hb
      simp only [List.map_cons, findWorker, List.find?, hgb, hb]
      exact ih (fun q hq hqk => hfix q (by simp [hq]) hqk)

/-- **C1.** For a Heartbeat from MessageOrigin::Worker(pk) naming a
known worker record: if challenge_block differs from the front of that
record's waiting_heartbeats (in particular when the queue is empty),
process_mining_report panics (modelled none); otherwise exactly the
front entry is popped — whatever the session — and when mining_state
is None or the session_id mismatches the current mining session the
rest of the handling is skipped: the resulting map differs from the
input only by the popped front entry (heartbeat_flag, tokenomic and
everything else unchanged) and no settle entry is appended. -/
theorem process_mining_report_heartbeat_spec (block : BlockInfo)
    (sum_share : Nat) (params : Params) (st : Workers)
    (pk sid cb ct iters : Nat) (wi : WorkerInfo)
    (hfind : findWorker st pk = some wi) :
    (wi.waiting_heartbeats.head? ≠ some cb →
      process_mining_report block sum_share params st
        (MessageOrigin.Worker pk)
        (MiningReportEvent.Heartbeat sid cb ct iters) = none) ∧
    (wi.waiting_heartbeats.head? = some cb →
      (∃ r, process_mining_report block sum_share params st
          (MessageOrigin.Worker pk)
          (MiningReportEvent.Heartbeat sid cb ct iters) = some r ∧
        ∃ wi2, findWorker r.1 pk = some wi2 ∧
          wi2.waiting_heartbeats = wi.waiting_heartbeats.tail) ∧
      ((wi.state.mining_state = none ∨
        (∃ mi, wi.state.mining_state = some mi ∧ sid ≠ mi.session_id)) →
        process_mining_report block sum_share params st
          (MessageOrigin.Worker pk)
          (MiningReportEvent.Heartbeat sid cb ct iters)
        = some (updateWorker st pk (fun _ =>
            { wi with waiting_heartbeats := wi.waiting_heartbeats.tail }),
            []))) := by
  constructor
  · intro hne
    simp [process_mining_report, hfind, hne]
  · intro heq
    constructor
    · cases hm : wi.state.mining_state with
      | none =>
        refine ⟨(updateWorker st pk (fun _ =>
          { wi with waiting_heartbeats := wi.waiting_heartbeats.tail }), []),
          ?_, ?_⟩
        · simp [process_mining_report, hfind, heq, hm]
        · exact ⟨_, findWorker_update_self st pk
            (fun _ => { wi with
              waiting_heartbeats := wi.waiting_heartbeats.tail }) wi hfind,
            rfl⟩
      | some mi =>
        by_cases hs : sid ≠ mi.session_id
        · refine ⟨(updateWorker st pk (fun _ =>
            { wi with waiting_heartbeats := wi.waiting_heartbeats.tail }), []),
            ?_, ?_⟩
          · simp [process_mining_report, hfind, heq, hm, hs]
          · exact ⟨_, findWorker_update_self st pk
              (fun _ => { wi with
                waiting_heartbeats := wi.waiting_heartbeats.tail }) wi hfind,
              rfl⟩
        · by_cases hu : wi.unresponsive = true
          · refine ⟨(updateWorker st pk (fun _ =>
              { wi with
                  waiting_heartbeats := wi.waiting_heartbeats.tail,
                  heartbeat_flag := true,
                  tokenomic :=
                    { (wi.tokenomic.update_p_instant block.now_ms iters) with
                        challenge_time_last := ct,
                        iteration_last := iters } }), []), ?_, ?_⟩
            · simp [process_mining_report, hfind, heq, hm, hs, hu]
            · exact ⟨_, findWorker_update_self st pk
                (fun _ => { wi with
                  waiting_heartbeats := wi.waiting_heartbeats.tail,
                  heartbeat_flag := true,
                  tokenomic :=
                    { (wi.tokenomic.update_p_instant block.now_ms iters) with
                        challenge_time_last := ct,
                        iteration_last := iters } }) wi hfind,
                rfl⟩
          · refine ⟨(updateWorker st pk (fun _ =>
              { wi with
                  waiting_heartbeats := wi.waiting_heartbeats.tail,
                  heartbeat_flag := true,
                  tokenomic := (TokenomicInfo.update_v_heartbeat
                    { (wi.tokenomic.update_p_instant block.now_ms iters) with
                        challenge_time_last := ct,
                        iteration_last := iters } params sum_share
                    block.now_ms).1 }),
              [({ pubkey := pk,
                  v := (TokenomicInfo.update_v_heartbeat
                    { (wi.tokenomic.update_p_instant block.now_ms iters) with
                        challenge_time_last := ct,
                        iteration_last := iters } params sum_share
                    block.now_ms).1.v,
                  payout := (TokenomicInfo.update_v_heartbeat
                    { (wi.tokenomic.update_p_instant block.now_ms iters) with
                        challenge_time_last := ct,
                        iteration_last := iters } params sum_share
                    block.now_ms).2 },
                SettleTag.heartbeatSettle pk)]), ?_, ?_⟩
            · simp [process_mining_report, hfind, heq, hm, hs, hu]
            · exact ⟨_, findWorker_update_self st pk
                (fun _ => { wi with
                  waiting_heartbeats := wi.waiting_heartbeats.tail,
                  heartbeat_flag := true,
                  tokenomic := (TokenomicInfo.update_v_heartbeat
                    { (wi.tokenomic.update_p_instant block.now_ms iters) with
                        challenge_time_last := ct,
                        iteration_last := iters } params sum_share
                    block.now_ms).1 }) wi hfind,
                rfl⟩
    · intro hskip
      cases hm : wi.state.mining_state with
      | none => simp [process_mining_report, hfind, heq, hm]
      | some mi =>
        cases hskip with
        | inl h0 => rw [h0] at hm; exact absurd hm (by simp)
        | inr h0 =>
          obtain ⟨mi2, hmi2, hs⟩ := h0
          simp [process_mining_report, hfind, heq, hmi2, hs]

/-- Example GK worker record for the C1 witness: registered, mining in
session 1, one pending challenge from block 2. -/
def c1ExampleWorker : WorkerInfo :=
  { state :=
      { pubkey := 2, hashed_id := 0, registered := true,
        bench_state := none,
        mining_state := some
          { session_id := 1, state := MiningState.Mining,
            start_time := 12000, start_iter := 0 } },
    waiting_heartbeats := [2], unresponsive := false,
    tokenomic := tokenomicDefault, heartbeat_flag := false }

/-- Witness for C1: a heartbeat carrying the right challenge block but
a stale session id pops the front entry and does nothing else. -/
theorem process_mining_report_heartbeat_spec_witness :
    process_mining_report { block_number := 5, now_ms := 30000 } 0
      test_params [(2, c1ExampleWorker)] (MessageOrigin.Worker 2)
      (MiningReportEvent.Heartbeat 9 2 12000 0)
    = some (updateWorker [(2, c1ExampleWorker)] 2 (fun _ =>
        { c1ExampleWorker with
            waiting_heartbeats := c1ExampleWorker.waiting_heartbeats.tail }),
        []) :=
  (((process_mining_report_heartbeat_spec
      { block_number := 5, now_ms := 30000 } 0 test_params
      [(2, c1ExampleWorker)] 2 9 2 12000 0 c1ExampleWorker rfl).2
    rfl).2)
    (Or.inr ⟨{ session_id := 1, state := MiningState.Mining,
               start_time := 12000, start_iter := 0 }, rfl, by decide⟩)

/-! ### Frame lemmas for system events -/

/-- WorkerState::process_event returns immediately, with no state
change and no callback invocation, when the worker event names a
different pubkey. -/
theorem process_event_other_pubkey (iters : Nat) (block : BlockInfo)
    (s : WorkerState) (e : WorkerEventWithKey) (hne : e.pubkey ≠ s.pubkey) :
    WorkerState.process_event iters block s (SystemEvent.WorkerEvent e)
      = (s, []) := by
  simp [WorkerState.process_event, hne]

/-- The gatekeeper worker-map invariant: every record stores the state
of the worker it is keyed by. -/
def workerKeysConsistent (st : Workers) : Prop :=
  ∀ p ∈ st, p.2.state.pubkey = p.1

instance (st : Workers) : Decidable (workerKeysConsistent st) :=
  inferInstanceAs (Decidable (∀ p ∈ st, p.2.state.pubkey = p.1))

theorem workerKeysConsistent_insert (st : Workers) (k : Nat)
    (wi : WorkerInfo) (hwf : workerKeysConsistent st)
    (hwi : wi.state.pubkey = k) :
    workerKeysConsistent (insertWorker st k wi) := by
  induction st with
  | nil =>
    intro p hp
    simp only [insertWorker, List.mem_singleton] at hp
    rw [hp]
    exact hwi
  | cons q rest ih =>
    intro p hp
    simp only [insertWorker] at hp
    by_cases h1 : k < q.1
    · rw [if_pos h1] at hp
      rcases List.mem_cons.mp hp with h | h
      · rw [h]; exact hwi
      · exact hwf p h
    · rw [if_neg h1] at hp
      by_cases h2 : k = q.1
      · rw [if_pos h2] at hp
        exact hwf p hp
      · rw [if_neg h2] at hp
        rcases List.mem_cons.mp hp with h | h
        · rw [h]; exact hwf q (by simp)
        · exact ih (fun r hr => hwf r (by simp [hr])) p h

/-- **C9.** A WorkerEvent with pubkey P mutates at most the record
keyed P: WorkerState::process_event returns the state unchanged with
no callback invocation when the event names a different pubkey, and in
the gatekeeper per-worker replay of process_system_event every record
keyed by some k ≠ P (state, waiting_heartbeats, unresponsive flag and
tokenomic fields alike) is left unchanged, given the map invariant
that each record stores the state of the worker it is keyed by. -/
theorem worker_event_frame_spec (hash : Nat → Nat) (block : BlockInfo)
    (st : Workers) (origin : MessageOrigin) (e : WorkerEventWithKey)
    (hwf : workerKeysConsistent st) :
    (∀ iters s, e.pubkey ≠ s.pubkey →
      WorkerState.process_event iters block s (SystemEvent.WorkerEvent e)
        = (s, [])) ∧
    (∀ k, k ≠ e.pubkey →
      findWorker (process_system_event hash block st origin
          (SystemEvent.WorkerEvent e)).1 k
        = findWorker st k) := by
  constructor
  · intro iters s hne
    exact process_event_other_pubkey iters block s e hne
  · intro k hk
    cases hp : origin.is_pallet with
    | false => simp [process_system_event, hp]
    | true =>
      obtain ⟨pk0, ev0⟩ := e
      simp only at hk
      have hreplay : ∀ stx : Workers, workerKeysConsistent stx →
          findWorker (replayEvent block
            (SystemEvent.WorkerEvent ⟨pk0, ev0⟩) stx) k = findWorker stx k := by
        intro stx hwfx
        refine findWorker_map_fixed stx _ k (fun p => rfl) ?_
        intro p hp2 hpk
        have hpe : WorkerState.process_event 0 block p.2.state
            (SystemEvent.WorkerEvent ⟨pk0, ev0⟩) = (p.2.state, []) := by
          refine process_event_other_pubkey 0 block p.2.state ⟨pk0, ev0⟩ ?_
          show pk0 ≠ p.2.state.pubkey
          rw [hwfx p hp2, hpk]
          exact fun h => hk h.symm
        simp [hpe, heartbeatBlocks]
      cases ev0 with
      | Registered c =>
        have hwf1 : workerKeysConsistent
            (insertWorker st pk0 (WorkerInfo.new hash pk0)) :=
          workerKeysConsistent_insert st pk0 _ hwf rfl
        cases hf : findWorker (replayEvent block
            (SystemEvent.WorkerEvent ⟨pk0, WorkerEvent.Registered c⟩)
            (insertWorker st pk0 (WorkerInfo.new hash pk0))) pk0 with
        | none =>
          simp only [process_system_event, hp, Bool.not_true, Bool.false_eq_true,
            if_false, hf]
          rw [hreplay _ hwf1, findWorker_insert_other st pk0 k _ hk]
        | some w =>
          simp only [process_system_event, hp, Bool.not_true, Bool.false_eq_true,
            if_false, hf]
          rw [findWorker_update_other _ pk0 k _ hk, hreplay _ hwf1,
            findWorker_insert_other st pk0 k _ hk]
      | BenchStart d =>
        cases hf : findWorker (replayEvent block
            (SystemEvent.WorkerEvent ⟨pk0, WorkerEvent.BenchStart d⟩) st) pk0 with
        | none =>
          simp only [process_system_event, hp, Bool.not_true, Bool.false_eq_true,
            if_false, hf]
          rw [hreplay _ hwf]
        | some w =>
          simp only [process_system_event, hp, Bool.not_true, Bool.false_eq_true,
            if_false, hf]
          rw [hreplay _ hwf]
      | BenchScore sc =>
        cases hf : findWorker (replayEvent block
            (SystemEvent.WorkerEvent ⟨pk0, WorkerEvent.BenchScore sc⟩) st) pk0 with
        | none =>
          simp only [process_system_event, hp, Bool.not_true, Bool.false_eq_true,
            if_false, hf]
          rw [hreplay _ hwf]
        | some w =>
          simp only [process_system_event, hp, Bool.not_true, Bool.false_eq_true,
            if_false, hf]
          rw [findWorker_update_other _ pk0 k _ hk, hreplay _ hwf]
      | MiningStart sid iv =>
        cases hf : findWorker (replayEvent block
            (SystemEvent.WorkerEvent ⟨pk0, WorkerEvent.MiningStart sid iv⟩) st) pk0 with
        | none =>
          simp only [process_system_event, hp, Bool.not_true, Bool.false_eq_true,
            if_false, hf]
          rw [hreplay _ hwf]
        | some w =>
          simp only [process_system_event, hp, Bool.not_true, Bool.false_eq_true,
            if_false, hf]
          rw [findWorker_update_other _ pk0 k _ hk, hreplay _ hwf]
      | MiningStop =>
        cases hf : findWorker (replayEvent block
            (SystemEvent.WorkerEvent ⟨pk0, WorkerEvent.MiningStop⟩) st) pk0 with
        | none =>
          simp only [process_system_event, hp, Bool.not_true, Bool.false_eq_true,
            if_false, hf]
          rw [hreplay _ hwf]
        | some w =>
          simp only [process_system_event, hp, Bool.not_true, Bool.false_eq_true,
            if_false, hf]
          rw [hreplay _ hwf]
      | MiningEnterUnresponsive =>
        cases hf : findWorker (replayEvent block
            (SystemEvent.WorkerEvent ⟨pk0, WorkerEvent.MiningEnterUnresponsive⟩) st) pk0 with
        | none =>
          simp only [process_system_event, hp, Bool.not_true, Bool.false_eq_true,
            if_false, hf]
          rw [hreplay _ hwf]
        | some w =>
          simp only [process_system_event, hp, Bool.not_true, Bool.false_eq_true,
            if_false, hf]
          rw [hreplay _ hwf]
      | MiningExitUnresponsive =>
        cases hf : findWorker (replayEvent block
            (SystemEvent.WorkerEvent ⟨pk0, WorkerEvent.MiningExitUnresponsive⟩) st) pk0 with
        | none =>
          simp only [process_system_event, hp, Bool.not_true, Bool.false_eq_true,
            if_false, hf]
          rw [hreplay _ hwf]
        | some w =>
          simp only [process_system_event, hp, Bool.not_true, Bool.false_eq_true,
            if_false, hf]
          rw [hreplay _ hwf]

/-- Witness for C9: with two registered workers, a MiningStart for
worker 1 leaves the record of worker 2 untouched, and process_event on
worker 2's state ignores the event. -/
theorem worker_event_frame_spec_witness :
    WorkerState.process_event 0 { block_number := 3, now_ms := 18000 }
        { pubkey := 2, hashed_id := 0, registered := true,
          bench_state := none, mining_state := none }
        (SystemEvent.WorkerEvent
          { pubkey := 1, event := WorkerEvent.MiningStart 1 (fp 1) })
      = ({ pubkey := 2, hashed_id := 0, registered := true,
           bench_state := none, mining_state := none }, []) ∧
    findWorker (process_system_event (fun _ => 0)
        { block_number := 3, now_ms := 18000 }
        [(1, WorkerInfo.new (fun _ => 0) 1), (2, WorkerInfo.new (fun _ => 0) 2)]
        (MessageOrigin.Pallet 0)
        (SystemEvent.WorkerEvent
          { pubkey := 1, event := WorkerEvent.MiningStart 1 (fp 1) })).1 2
      = findWorker
          [(1, WorkerInfo.new (fun _ => 0) 1), (2, WorkerInfo.new (fun _ => 0) 2)] 2 := by
  have h := worker_event_frame_spec (fun _ => 0)
    { block_number := 3, now_ms := 18000 }
    [(1, WorkerInfo.new (fun _ => 0) 1), (2, WorkerInfo.new (fun _ => 0) 2)]
    (MessageOrigin.Pallet 0)
    { pubkey := 1, event := WorkerEvent.MiningStart 1 (fp 1) }
    (by
      intro p hp
      rcases List.mem_cons.mp hp with h1 | h1
      · rw [h1]; rfl
      · rcases List.mem_cons.mp h1 with h2 | h2
        · rw [h2]; rfl
        · simp at h2)
  constructor
  · exact h.1 0 _ (by decide)
  · exact h.2 2 (by decide)

/-! ### Sortedness of waiting_heartbeats (C7) -/

/-- Strictly sorted ascending: every entry is strictly less than every
later entry (for a transitive order this is the same as adjacent
strict increase). -/
def strictSorted (q : List Nat) : Prop := List.Pairwise (· < ·) q

/-- Number of HeartbeatChallenge messages in a drained block. -/
def challengeCount : List GKMessage → Nat
  | [] => 0
  | GKMessage.system _ (SystemEvent.HeartbeatChallenge _) :: rest =>
      challengeCount rest + 1
  | _ :: rest => challengeCount rest

/-- All queues strictly sorted with entries strictly below b. -/
def WInvLt (b : Nat) (st : Workers) : Prop :=
  ∀ p ∈ st, strictSorted p.2.waiting_heartbeats ∧
    ∀ x ∈ p.2.waiting_heartbeats, x < b

/-- All queues strictly sorted with entries at most b. -/
def WInvLe (b : Nat) (st : Workers) : Prop :=
  ∀ p ∈ st, strictSorted p.2.waiting_heartbeats ∧
    ∀ x ∈ p.2.waiting_heartbeats, x ≤ b

instance (q : List Nat) : Decidable (strictSorted q) :=
  inferInstanceAs (Decidable (List.Pairwise (· < ·) q))

instance (b : Nat) (st : Workers) : Decidable (WInvLt b st) :=
  inferInstanceAs (Decidable (∀ p ∈ st,
    strictSorted p.2.waiting_heartbeats ∧
      ∀ x ∈ p.2.waiting_heartbeats, x < b))

instance (b : Nat) (st : Workers) : Decidable (WInvLe b st) :=
  inferInstanceAs (Decidable (∀ p ∈ st,
    strictSorted p.2.waiting_heartbeats ∧
      ∀ x ∈ p.2.waiting_heartbeats, x ≤ b))

theorem qInvLt_tail (b : Nat) (q : List Nat)
    (h : strictSorted q ∧ ∀ x ∈ q, x < b) :
    strictSorted q.tail ∧ ∀ x ∈ q.tail, x < b :=
  ⟨h.1.sublist (List.tail_sublist q),
   fun x hx => h.2 x ((List.tail_sublist q).subset hx)⟩

theorem qInvLe_tail (b : Nat) (q : List Nat)
    (h : strictSorted q ∧ ∀ x ∈ q, x ≤ b) :
    strictSorted q.tail ∧ ∀ x ∈ q.tail, x ≤ b :=
  ⟨h.1.sublist (List.tail_sublist q),
   fun x hx => h.2 x ((List.tail_sublist q).subset hx)⟩

theorem qInvLt_push (b : Nat) (q : List Nat)
    (h : strictSorted q ∧ ∀ x ∈ q, x < b) :
    strictSorted (q ++ [b]) ∧ ∀ x ∈ q ++ [b], x ≤ b := by
  constructor
  · rw [strictSorted, List.pairwise_append]
    exact ⟨h.1, List.pairwise_singleton _ _, fun x hx y hy => by
      rw [List.mem_singleton.mp hy]; exact h.2 x hx⟩
  · intro x hx
    rcases List.mem_append.mp hx with h1 | h1
    · exact Nat.le_of_lt (h.2 x h1)
    · rw [List.mem_singleton.mp h1]

theorem findWorker_mem (st : Workers) (k : Nat) (wi : WorkerInfo)
    (h : findWorker st k = some wi) : ∃ pr ∈ st, pr.2 = wi := by
  unfold findWorker at h
  cases hf : st.find? (fun p => p.1 == k) with
  | none => rw [hf] at h; simp at h
  | some pr =>
    rw [hf] at h
    exact ⟨pr, List.mem_of_find?_eq_some hf, Option.some.inj h⟩

theorem mem_updateWorker (st : Workers) (k : Nat)
    (f : WorkerInfo → WorkerInfo) (p : Nat × WorkerInfo)
    (hp : p ∈ updateWorker st k f) :
    ∃ p0 ∈ st, p = p0 ∨ p = (p0.1, f p0.2) := by
  obtain ⟨p0, hp0, he⟩ := List.mem_map.mp hp
  by_cases hk : p0.1 = k
  · rw [if_pos hk] at he
    exact ⟨p0, hp0, Or.inr he.symm⟩
  · rw [if_neg hk] at he
    exact ⟨p0, hp0, Or.inl he.symm⟩

theorem mem_insertWorker (st : Workers) (k : Nat) (wi : WorkerInfo)
    (p : Nat × WorkerInfo) (hp : p ∈ insertWorker st k wi) :
    p ∈ st ∨ p = (k, wi) := by
  induction st with
  | nil =>
    simp only [insertWorker, List.mem_singleton] at hp
    exact Or.inr hp
  | cons q rest ih =>
    simp only [insertWorker] at hp
    by_cases h1 : k < q.1
    · rw [if_pos h1] at hp
      rcases List.mem_cons.mp hp with h | h
      · exact Or.inr h
      · exact Or.inl h
    · rw [if_neg h1] at hp
      by_cases h2 : k = q.1
      · rw [if_pos h2] at hp
        exact Or.inl hp
      · rw [if_neg h2] at hp
        rcases List.mem_cons.mp hp with h | h
        · exact Or.inl (by rw [h]; exact List.mem_cons_self q rest)
        · rcases ih h with h3 | h3
          · exact Or.inl (List.mem_cons_of_mem q h3)
          · exact Or.inr h3

theorem queues_update_const (st : Workers) (pk : Nat) (wiX wi : WorkerInfo)
    (hfind : findWorker st pk = some wi)
    (hwh : wiX.waiting_heartbeats = wi.waiting_heartbeats ∨
      wiX.waiting_heartbeats = wi.waiting_heartbeats.tail) :
    ∀ p ∈ updateWorker st pk (fun _ => wiX), ∃ p0 ∈ st,
      p.2.waiting_heartbeats = p0.2.waiting_heartbeats ∨
      p.2.waiting_heartbeats = p0.2.waiting_heartbeats.tail := by
  intro p hp
  obtain ⟨p0, hp0, hpe⟩ := mem_updateWorker st pk _ p hp
  rcases hpe with h | h
  · exact ⟨p0, hp0, Or.inl (by rw [h])⟩
  · obtain ⟨pr, hpr, hpr2⟩ := findWorker_mem st pk wi hfind
    refine ⟨pr, hpr, ?_⟩
    rw [h]
    simp only []
    rw [hpr2]
    exact hwh

theorem hbBlocks_worker_event (iters : Nat) (block : BlockInfo)
    (s : WorkerState) (e : WorkerEventWithKey) :
    heartbeatBlocks
      (WorkerState.process_event iters block s (SystemEvent.WorkerEvent e)).2
      = [] := by
  by_cases hpk : e.pubkey ≠ s.pubkey
  · simp [WorkerState.process_event, hpk, heartbeatBlocks]
  · cases hev : e.event with
    | Registered c =>
      simp [WorkerState.process_event, hpk, hev, heartbeatBlocks]
    | BenchStart d =>
      simp [WorkerState.process_event, hpk, hev, heartbeatBlocks]
    | BenchScore sc =>
      simp [WorkerState.process_event, hpk, hev, heartbeatBlocks]
    | MiningStart sid iv =>
      simp [WorkerState.process_event, hpk, hev, heartbeatBlocks]
    | MiningStop =>
      by_cases hnp :
          ({ s with mining_state := none } : WorkerState).need_pause = true <;>
        simp [WorkerState.process_event, hpk, hev, hnp, heartbeatBlocks]
    | MiningEnterUnresponsive =>
      cases hms : s.mining_state with
      | none =>
        simp [WorkerState.process_event, hpk, hev, hms, heartbeatBlocks]
      | some mi =>
        by_cases hst : mi.state = MiningState.Mining <;>
          simp [WorkerState.process_event, hpk, hev, hms, hst, heartbeatBlocks]
    | MiningExitUnresponsive =>
      cases hms : s.mining_state with
      | none =>
        simp [WorkerState.process_event, hpk, hev, hms, heartbeatBlocks]
      | some mi =>
        by_cases hst : mi.state = MiningState.Paused <;>
          simp [WorkerState.process_event, hpk, hev, hms, hst, heartbeatBlocks]

theorem hbBlocks_challenge (iters : Nat) (block : BlockInfo)
    (s : WorkerState) (c : HeartbeatChallenge) :
    heartbeatBlocks
      (WorkerState.process_event iters block s
        (SystemEvent.HeartbeatChallenge c)).2 = [] ∨
    heartbeatBlocks
      (WorkerState.process_event iters block s
        (SystemEvent.HeartbeatChallenge c)).2 = [block.block_number] := by
  cases hreg : s.registered with
  | false =>
    exact Or.inl (by
      simp [WorkerState.process_event, WorkerState.handle_heartbeat_challenge,
        hreg, heartbeatBlocks])
  | true =>
    cases hms : s.mining_state with
    | none =>
      exact Or.inl (by
        simp [WorkerState.process_event, WorkerState.handle_heartbeat_challenge,
          hreg, hms, heartbeatBlocks])
    | some mi =>
      cases hst : mi.state with
      | Paused =>
        exact Or.inl (by
          simp [WorkerState.process_event, WorkerState.handle_heartbeat_challenge,
            hreg, hms, hst, heartbeatBlocks])
      | Mining =>
        by_cases hx : Nat.xor s.hashed_id c.seed ≤ c.online_target
        · exact Or.inr (by
            simp [WorkerState.process_event, WorkerState.handle_heartbeat_challenge,
              hreg, hms, hst, hx, heartbeatBlocks])
        · exact Or.inl (by
            simp [WorkerState.process_event, WorkerState.handle_heartbeat_challenge,
              hreg, hms, hst, hx, heartbeatBlocks])

theorem hbBlocks_on_block_processed (iters : Nat) (block : BlockInfo)
    (s : WorkerState) :
    heartbeatBlocks (WorkerState.on_block_processed iters block s).2 = [] := by
  cases hbs : s.bench_state with
  | none => simp [WorkerState.on_block_processed, hbs, heartbeatBlocks]
  | some bs =>
    by_cases hd : bs.duration ≤ block.block_number - bs.start_block
    · simp only [WorkerState.on_block_processed, hbs, if_pos hd]
      split <;> simp [heartbeatBlocks]
    · simp [WorkerState.on_block_processed, hbs, hd, heartbeatBlocks]

/-- Queue evolution under one mining-report message: every surviving
record's queue is some input record's queue or its tail. -/
theorem queues_mining_step (block : BlockInfo) (ss : Nat) (params : Params)
    (st : Workers) (o : MessageOrigin) (ev : MiningReportEvent)
    (r : Workers × List (SettleInfo × SettleTag))
    (hr : process_mining_report block ss params st o ev = some r) :
    ∀ p ∈ r.1, ∃ p0 ∈ st,
      p.2.waiting_heartbeats = p0.2.waiting_heartbeats ∨
      p.2.waiting_heartbeats = p0.2.waiting_heartbeats.tail := by
  cases ev with
  | Heartbeat sid cb ct iters =>
    cases o with
    | Worker pk =>
      cases hf : findWorker st pk with
      | none =>
        simp only [process_mining_report, hf, Option.some.injEq] at hr
        rw [← hr]
        exact fun p hp => ⟨p, hp, Or.inl rfl⟩
      | some wi =>
        by_cases hh : wi.waiting_heartbeats.head? = some cb
        · cases hm : wi.state.mining_state with
          | none =>
            simp [process_mining_report, hf, hh, hm] at hr
            rw [← hr]
            exact queues_update_const st pk _ wi hf (Or.inr rfl)
          | some mi =>
            by_cases hs : sid = mi.session_id
            · by_cases hu : wi.unresponsive = true
              · simp [process_mining_report, hf, hh, hm, hs, hu] at hr
                rw [← hr]
                exact queues_update_const st pk _ wi hf (Or.inr rfl)
              · simp [process_mining_report, hf, hh, hm, hs, hu] at hr
                rw [← hr]
                exact queues_update_const st pk _ wi hf (Or.inr rfl)
            · simp [process_mining_report, hf, hh, hm, hs] at hr
              rw [← hr]
              exact queues_update_const st pk _ wi hf (Or.inr rfl)
        · simp [process_mining_report, hf, hh] at hr
    | Pallet n =>
      simp only [process_mining_report, Option.some.injEq] at hr
      rw [← hr]
      exact fun p hp => ⟨p, hp, Or.inl rfl⟩
    | Contract n =>
      simp only [process_mining_report, Option.some.injEq] at hr
      rw [← hr]
      exact fun p hp => ⟨p, hp, Or.inl rfl⟩
    | AccountId n =>
      simp only [process_mining_report, Option.some.injEq] at hr
      rw [← hr]
      exact fun p hp => ⟨p, hp, Or.inl rfl⟩
    | Gatekeeper =>
      simp only [process_mining_report, Option.some.injEq] at hr
      rw [← hr]
      exact fun p hp => ⟨p, hp, Or.inl rfl⟩

/-- Replay of a WorkerEvent never pushes onto a queue: every record of
the replayed map takes its queue from the underlying map (which is st
possibly extended by fresh empty-queue records). -/
theorem queues_replay_we (block : BlockInfo) (e : WorkerEventWithKey)
    (st1 st : Workers)
    (hsub : ∀ q ∈ st1, q ∈ st ∨ q.2.waiting_heartbeats = []) :
    ∀ q ∈ replayEvent block (SystemEvent.WorkerEvent e) st1, (∃ q0 ∈ st,
      q.2.waiting_heartbeats = q0.2.waiting_heartbeats) ∨
      q.2.waiting_heartbeats = [] := by
  intro q hq
  obtain ⟨q0, hq0, hqe⟩ := List.mem_map.mp hq
  rcases hsub q0 hq0 with h0 | h0
  · refine Or.inl ⟨q0, h0, ?_⟩
    rw [← hqe]
    simp [hbBlocks_worker_event]
  · refine Or.inr ?_
    rw [← hqe]
    simp [hbBlocks_worker_event, h0]

/-- Queue evolution under one WorkerEvent system message: queues are
unchanged, except that a fresh (empty-queue) record may be inserted. -/
theorem queues_system_we_step (hash : Nat → Nat) (block : BlockInfo)
    (st : Workers) (o : MessageOrigin) (e : WorkerEventWithKey) :
    ∀ p ∈ (process_system_event hash block st o
        (SystemEvent.WorkerEvent e)).1, (∃ p0 ∈ st,
      p.2.waiting_heartbeats = p0.2.waiting_heartbeats) ∨
      p.2.waiting_heartbeats = [] := by
  intro p hp
  cases hpal : o.is_pallet with
  | false =>
    simp only [process_system_event, hpal, Bool.not_false, if_true] at hp
    exact Or.inl ⟨p, hp, rfl⟩
  | true =>
    have hsub0 : ∀ q ∈ st, q ∈ st ∨ q.2.waiting_heartbeats = [] :=
      fun q hq => Or.inl hq
    have hsub1 : ∀ q ∈ insertWorker st e.pubkey (WorkerInfo.new hash e.pubkey),
        q ∈ st ∨ q.2.waiting_heartbeats = [] := by
      intro q hq
      rcases mem_insertWorker st e.pubkey _ q hq with h | h
      · exact Or.inl h
      · exact Or.inr (by rw [h]; rfl)
    cases hev : e.event with
    | Registered c =>
      simp only [process_system_event, hpal, Bool.not_true,
        Bool.false_eq_true, if_false, hev] at hp
      rcases hfw : findWorker (replayEvent block (SystemEvent.WorkerEvent e)
          (insertWorker st e.pubkey (WorkerInfo.new hash e.pubkey)))
          e.pubkey with _ | w
      · simp only [hfw] at hp
        exact queues_replay_we block e _ st hsub1 p hp
      · simp only [hfw] at hp
        obtain ⟨q0, hq0, hqe⟩ := mem_updateWorker _ _ _ p hp
        rcases hqe with h | h
        · rw [h]
          exact queues_replay_we block e _ st hsub1 q0 hq0
        · rcases queues_replay_we block e _ st hsub1 q0 hq0 with
            ⟨q1, hq1, hq1e⟩ | h0
          · exact Or.inl ⟨q1, hq1, by rw [h]; exact hq1e⟩
          · exact Or.inr (by rw [h]; exact h0)
    | BenchStart d =>
      simp only [process_system_event, hpal, Bool.not_true,
        Bool.false_eq_true, if_false, hev] at hp
      rcases hfw : findWorker (replayEvent block
          (SystemEvent.WorkerEvent e) st) e.pubkey with _ | w
      · simp only [hfw] at hp
        exact queues_replay_we block e _ st hsub0 p hp
      · simp only [hfw] at hp
        exact queues_replay_we block e _ st hsub0 p hp
    | BenchScore sc =>
      simp only [process_system_event, hpal, Bool.not_true,
        Bool.false_eq_true, if_false, hev] at hp
      rcases hfw : findWorker (replayEvent block
          (SystemEvent.WorkerEvent e) st) e.pubkey with _ | w
      · simp only [hfw] at hp
        exact queues_replay_we block e _ st hsub0 p hp
      · simp only [hfw] at hp
        obtain ⟨q0, hq0, hqe⟩ := mem_updateWorker _ _ _ p hp
        rcases hqe with h | h
        · rw [h]
          exact queues_replay_we block e _ st hsub0 q0 hq0
        · rcases queues_replay_we block e _ st hsub0 q0 hq0 with
            ⟨q1, hq1, hq1e⟩ | h0
          · exact Or.inl ⟨q1, hq1, by rw [h]; exact hq1e⟩
          · exact Or.inr (by rw [h]; exact h0)
    | MiningStart sid iv =>
      simp only [process_system_event, hpal, Bool.not_true,
        Bool.false_eq_true, if_false, hev] at hp
      rcases hfw : findWorker (replayEvent block
          (SystemEvent.WorkerEvent e) st) e.pubkey with _ | w
      · simp only [hfw] at hp
        exact queues_replay_we block e _ st hsub0 p hp
      · simp only [hfw] at hp
        obtain ⟨q0, hq0, hqe⟩ := mem_updateWorker _ _ _ p hp
        rcases hqe with h | h
        · rw [h]
          exact queues_replay_we block e _ st hsub0 q0 hq0
        · rcases queues_replay_we block e _ st hsub0 q0 hq0 with
            ⟨q1, hq1, hq1e⟩ | h0
          · exact Or.inl ⟨q1, hq1, by rw [h]; exact hq1e⟩
          · exact Or.inr (by rw [h]; exact h0)
    | MiningStop =>
      simp only [process_system_event, hpal, Bool.not_true,
        Bool.false_eq_true, if_false, hev] at hp
      rcases hfw : findWorker (replayEvent block
          (SystemEvent.WorkerEvent e) st) e.pubkey with _ | w
      · simp only [hfw] at hp
        exact queues_replay_we block e _ st hsub0 p hp
      · simp only [hfw] at hp
        exact queues_replay_we block e _ st hsub0 p hp
    | MiningEnterUnresponsive =>
      simp only [process_system_event, hpal, Bool.not_true,
        Bool.false_eq_true, if_false, hev] at hp
      rcases hfw : findWorker (replayEvent block
          (SystemEvent.WorkerEvent e) st) e.pubkey with _ | w
      · simp only [hfw] at hp
        exact queues_replay_we block e _ st hsub0 p hp
      · simp only [hfw] at hp
        exact queues_replay_we block e _ st hsub0 p hp
    | MiningExitUnresponsive =>
      simp only [process_system_event, hpal, Bool.not_true,
        Bool.false_eq_true, if_false, hev] at hp
      rcases hfw : findWorker (replayEvent block
          (SystemEvent.WorkerEvent e) st) e.pubkey with _ | w
      · simp only [hfw] at hp
        exact queues_replay_we block e _ st hsub0 p hp
      · simp only [hfw] at hp
        exact queues_replay_we block e _ st hsub0 p hp

/-- Queue evolution under one HeartbeatChallenge system message: each
queue is unchanged or gets the current block number appended. -/
theorem queues_system_hc_step (hash : Nat → Nat) (block : BlockInfo)
    (st : Workers) (o : MessageOrigin) (c : HeartbeatChallenge) :
    ∀ p ∈ (process_system_event hash block st o
        (SystemEvent.HeartbeatChallenge c)).1, ∃ p0 ∈ st,
      p.2.waiting_heartbeats = p0.2.waiting_heartbeats ∨
      p.2.waiting_heartbeats
        = p0.2.waiting_heartbeats ++ [block.block_number] := by
  intro p hp
  cases hpal : o.is_pallet with
  | false =>
    simp only [process_system_event, hpal, Bool.not_false, if_true] at hp
    exact ⟨p, hp, Or.inl rfl⟩
  | true =>
    simp only [process_system_event, hpal, Bool.not_true,
      Bool.false_eq_true, if_false] at hp
    obtain ⟨q0, hq0, hqe⟩ := List.mem_map.mp hp
    refine ⟨q0, hq0, ?_⟩
    rcases hbBlocks_challenge 0 block q0.2.state c with h | h
    · exact Or.inl (by rw [← hqe]; simp [h])
    · exact Or.inr (by rw [← hqe]; simp [h])

theorem WInvLt_mining_step (block : BlockInfo) (ss : Nat) (params : Params)
    (st : Workers) (o : MessageOrigin) (ev : MiningReportEvent)
    (r : Workers × List (SettleInfo × SettleTag)) (b : Nat)
    (hr : process_mining_report block ss params st o ev = some r)
    (hinv : WInvLt b st) : WInvLt b r.1 := by
  intro p hp
  obtain ⟨p0, hp0, h⟩ := queues_mining_step block ss params st o ev r hr p hp
  rcases h with h | h
  · rw [h]; exact hinv p0 hp0
  · rw [h]; exact qInvLt_tail b _ (hinv p0 hp0)

theorem WInvLe_mining_step (block : BlockInfo) (ss : Nat) (params : Params)
    (st : Workers) (o : MessageOrigin) (ev : MiningReportEvent)
    (r : Workers × List (SettleInfo × SettleTag)) (b : Nat)
    (hr : process_mining_report block ss params st o ev = some r)
    (hinv : WInvLe b st) : WInvLe b r.1 := by
  intro p hp
  obtain ⟨p0, hp0, h⟩ := queues_mining_step block ss params st o ev r hr p hp
  rcases h with h | h
  · rw [h]; exact hinv p0 hp0
  · rw [h]; exact qInvLe_tail b _ (hinv p0 hp0)

theorem WInvLt_we_step (hash : Nat → Nat) (block : BlockInfo)
    (st : Workers) (o : MessageOrigin) (e : WorkerEventWithKey) (b : Nat)
    (hinv : WInvLt b st) :
    WInvLt b (process_system_event hash block st o
      (SystemEvent.WorkerEvent e)).1 := by
  intro p hp
  rcases queues_system_we_step hash block st o e p hp with ⟨p0, hp0, h⟩ | h
  · rw [h]; exact hinv p0 hp0
  · rw [h]
    exact ⟨List.Pairwise.nil, by simp⟩

theorem WInvLe_we_step (hash : Nat → Nat) (block : BlockInfo)
    (st : Workers) (o : MessageOrigin) (e : WorkerEventWithKey) (b : Nat)
    (hinv : WInvLe b st) :
    WInvLe b (process_system_event hash block st o
      (SystemEvent.WorkerEvent e)).1 := by
  intro p hp
  rcases queues_system_we_step hash block st o e p hp with ⟨p0, hp0, h⟩ | h
  · rw [h]; exact hinv p0 hp0
  · rw [h]
    exact ⟨List.Pairwise.nil, by simp⟩

theorem WInvLt_hc_step (hash : Nat → Nat) (block : BlockInfo)
    (st : Workers) (o : MessageOrigin) (c : HeartbeatChallenge)
    (hinv : WInvLt block.block_number st) :
    WInvLe block.block_number (process_system_event hash block st o
      (SystemEvent.HeartbeatChallenge c)).1 := by
  intro p hp
  obtain ⟨p0, hp0, h⟩ := queues_system_hc_step hash block st o c p hp
  rcases h with h | h
  · rw [h]
    exact ⟨(hinv p0 hp0).1, fun x hx => Nat.le_of_lt ((hinv p0 hp0).2 x hx)⟩
  · rw [h]
    exact qInvLt_push block.block_number _ (hinv p0 hp0)

theorem fold_queues_le (hash : Nat → Nat) (block : BlockInfo) (ss : Nat)
    (params : Params) :
    ∀ (msgs : List GKMessage) (st : Workers)
      (r : Workers × List (SettleInfo × SettleTag)),
      challengeCount msgs = 0 → WInvLe block.block_number st →
      processMessageList hash block ss params st msgs = some r →
      WInvLe block.block_number r.1 := by
  intro msgs
  induction msgs with
  | nil =>
    intro st r _ hinv hr
    simp only [processMessageList, Option.some.injEq] at hr
    rw [← hr]
    exact hinv
  | cons m rest ih =>
    intro st r hc hinv hr
    simp only [processMessageList] at hr
    cases ho : processOneMessage hash block ss params st m with
    | none => rw [ho] at hr; simp at hr
    | some r1 =>
      rw [ho] at hr
      cases hrec : processMessageList hash block ss params r1.1 rest with
      | none => simp only [hrec] at hr; simp at hr
      | some r2 =>
        simp only [hrec, Option.some.injEq] at hr
        rw [← hr]
        cases m with
        | mining o ev =>
          have hc2 : challengeCount rest = 0 := by
            simpa [challengeCount] using hc
          exact ih r1.1 r2 hc2
            (WInvLe_mining_step block ss params st o ev r1
              block.block_number ho hinv) hrec
        | system o ev =>
          cases ev with
          | WorkerEvent e =>
            have hc2 : challengeCount rest = 0 := by
              simpa [challengeCount] using hc
            have ho2 : r1 = process_system_event hash block st o
                (SystemEvent.WorkerEvent e) := by
              simpa [processOneMessage] using ho.symm
            refine ih r1.1 r2 hc2 ?_ hrec
            rw [ho2]
            exact WInvLe_we_step hash block st o e block.block_number hinv
          | HeartbeatChallenge c =>
            exfalso
            simp [challengeCount] at hc

theorem fold_queues_lt (hash : Nat → Nat) (block : BlockInfo) (ss : Nat)
    (params : Params) :
    ∀ (msgs : List GKMessage) (st : Workers)
      (r : Workers × List (SettleInfo × SettleTag)),
      challengeCount msgs ≤ 1 → WInvLt block.block_number st →
      processMessageList hash block ss params st msgs = some r →
      WInvLe block.block_number r.1 := by
  intro msgs
  induction msgs with
  | nil =>
    intro st r _ hinv hr
    simp only [processMessageList, Option.some.injEq] at hr
    rw [← hr]
    exact fun p hp => ⟨(hinv p hp).1,
      fun x hx => Nat.le_of_lt ((hinv p hp).2 x hx)⟩
  | cons m rest ih =>
    intro st r hc hinv hr
    simp only [processMessageList] at hr
    cases ho : processOneMessage hash block ss params st m with
    | none => rw [ho] at hr; simp at hr
    | some r1 =>
      rw [ho] at hr
      cases hrec : processMessageList hash block ss params r1.1 rest with
      | none => simp only [hrec] at hr; simp at hr
      | some r2 =>
        simp only [hrec, Option.some.injEq] at hr
        rw [← hr]
        cases m with
        | mining o ev =>
          have hc2 : challengeCount rest ≤ 1 := by
            simpa [challengeCount] using hc
          exact ih r1.1 r2 hc2
            (WInvLt_mining_step block ss params st o ev r1
              block.block_number ho hinv) hrec
        | system o ev =>
          cases ev with
          | WorkerEvent e =>
            have hc2 : challengeCount rest ≤ 1 := by
              simpa [challengeCount] using hc
            have ho2 : r1 = process_system_event hash block st o
                (SystemEvent.WorkerEvent e) := by
              simpa [processOneMessage] using ho.symm
            refine ih r1.1 r2 hc2 ?_ hrec
            rw [ho2]
            exact WInvLt_we_step hash block st o e block.block_number hinv
          | HeartbeatChallenge c =>
            have hc2 : challengeCount rest = 0 := by
              have hc3 : challengeCount rest + 1 ≤ 1 := by
                simpa [challengeCount] using hc
              omega
            have ho2 : r1 = process_system_event hash block st o
                (SystemEvent.HeartbeatChallenge c) := by
              simpa [processOneMessage] using ho.symm
            refine fold_queues_le hash block ss params rest r1.1 r2 hc2 ?_ hrec
            rw [ho2]
            exact WInvLt_hc_step hash block st o c hinv

theorem postProcessWorker_queue (block : BlockInfo) (params : Params)
    (wi : WorkerInfo) :
    (postProcessWorker block params wi).1.waiting_heartbeats
      = wi.waiting_heartbeats := by
  unfold postProcessWorker
  simp only [hbBlocks_on_block_processed, List.append_nil]
  split
  · rfl
  · split
    · split <;> rfl
    · split
      · split
        · rfl
        · split <;> rfl
      · split <;> rfl

theorem block_post_process_queues (block : BlockInfo) (params : Params)
    (st : Workers) :
    ∀ p ∈ (block_post_process block params st).1, ∃ p0 ∈ st,
      p.2.waiting_heartbeats = p0.2.waiting_heartbeats := by
  induction st with
  | nil => simp [block_post_process]
  | cons q rest ih =>
    intro p hp
    simp only [block_post_process] at hp
    rcases List.mem_cons.mp hp with h | h
    · refine ⟨q, List.mem_cons_self q rest, ?_⟩
      rw [h]
      exact postProcessWorker_queue block params q.2
    · obtain ⟨p0, hp0, he⟩ := ih p h
      exact ⟨p0, List.mem_cons_of_mem q hp0, he⟩

/-- A registered worker mining in session 1 with the given pending
challenge queue (examples for C7). -/
def c7MiningWorker (wh : List Nat) : WorkerInfo :=
  { state :=
      { pubkey := 1, hashed_id := 0, registered := true,
        bench_state := none,
        mining_state := some
          { session_id := 1, state := MiningState.Mining,
            start_time := 0, start_iter := 0 } },
    waiting_heartbeats := wh, unresponsive := false,
    tokenomic := tokenomicDefault, heartbeat_flag := false }

/-- **C7 counterexample.** The claim asserts waiting_heartbeats is
strictly sorted ascending after every processed block given the
push/pop discipline.  In this concrete block two HeartbeatChallenge
events are processed; the worker hits both seeds, pushing the current
block number twice, and the resulting queue [5, 5] is not strictly
sorted. -/
theorem waiting_heartbeats_sorted_counterexample :
    ((processBlock (fun _ => 0) test_params
        { block_number := 5, now_ms := 30000 }
        [(1, c7MiningWorker [])]
        [GKMessage.system (MessageOrigin.Pallet 0)
          (SystemEvent.HeartbeatChallenge { seed := 0, online_target := 1000 }),
         GKMessage.system (MessageOrigin.Pallet 0)
          (SystemEvent.HeartbeatChallenge { seed := 0, online_target := 1000 })]).map
      (fun r => decide (∀ p ∈ r.1, strictSorted p.2.waiting_heartbeats)))
      = some false := by
  decide

/-- **C7 (amended).** If before the block every worker's
waiting_heartbeats queue is strictly sorted with all entries below the
current block number, and the block carries at most one
HeartbeatChallenge message, then after the block (when it does not
panic) every queue is again strictly sorted ascending.  (With several
challenge messages in one block the current block number can be pushed
twice, so only non-strict sortedness survives; entries are still only
pushed with the current block number on a challenge hit and popped
from the front.) -/
theorem waiting_heartbeats_sorted (hash : Nat → Nat) (params : Params)
    (block : BlockInfo) (st : Workers) (msgs : List GKMessage)
    (r : Workers × MiningInfoUpdateEvent × List SettleTag)
    (hlt : WInvLt block.block_number st)
    (hcnt : challengeCount msgs ≤ 1)
    (hres : processBlock hash params block st msgs = some r) :
    ∀ p ∈ r.1, strictSorted p.2.waiting_heartbeats := by
  simp only [processBlock] at hres
  cases hpm : processMessageList hash block
      ((st.map (fun p => p.2.tokenomic.share)).sum) params
      (st.map (fun p => (p.1, { p.2 with heartbeat_flag := false }))) msgs with
  | none => rw [hpm] at hres; simp at hres
  | some r0 =>
    rw [hpm] at hres
    have hres2 : ((block_post_process block params r0.1).1,
        ({ block_number := block.block_number, timestamp_ms := block.now_ms,
           offline := (block_post_process block params r0.1).2.1,
           recovered_to_online := (block_post_process block params r0.1).2.2,
           settle := r0.2.map Prod.fst } : MiningInfoUpdateEvent),
        r0.2.map Prod.snd) = r := Option.some.inj hres
    have hinv0 : WInvLt block.block_number
        (st.map (fun p => (p.1, { p.2 with heartbeat_flag := false }))) := by
      intro p hp
      obtain ⟨p0, hp0, he⟩ := List.mem_map.mp hp
      have hq : p.2.waiting_heartbeats = p0.2.waiting_heartbeats := by
        rw [← he]
      rw [hq]
      exact hlt p0 hp0
    have hinv1 : WInvLe block.block_number r0.1 :=
      fold_queues_lt hash block _ params msgs _ r0 hcnt hinv0 hpm
    intro p hp
    rw [← hres2] at hp
    obtain ⟨p0, hp0, he⟩ := block_post_process_queues block params r0.1 p hp
    rw [he]
    exact (hinv1 p0 hp0).1

/-- Witness for C7: a registered mining worker with one pending
challenge from block 2 processes a block at height 5 carrying one
challenge; all queues end strictly sorted. -/
theorem waiting_heartbeats_sorted_witness :
    ∃ r, processBlock (fun _ => 0) test_params
        { block_number := 5, now_ms := 30000 } [(1, c7MiningWorker [2])]
        [GKMessage.system (MessageOrigin.Pallet 0)
          (SystemEvent.HeartbeatChallenge
            { seed := 0, online_target := 1000 })] = some r ∧
      ∀ p ∈ r.1, strictSorted p.2.waiting_heartbeats := by
  cases hpb : processBlock (fun _ => 0) test_params
      { block_number := 5, now_ms := 30000 } [(1, c7MiningWorker [2])]
      [GKMessage.system (MessageOrigin.Pallet 0)
        (SystemEvent.HeartbeatChallenge
          { seed := 0, online_target := 1000 })] with
  | none => exact absurd hpb (by decide)
  | some r =>
    exact ⟨r, rfl, waiting_heartbeats_sorted (fun _ => 0) test_params
      { block_number := 5, now_ms := 30000 } [(1, c7MiningWorker [2])]
      [GKMessage.system (MessageOrigin.Pallet 0)
        (SystemEvent.HeartbeatChallenge
          { seed := 0, online_target := 1000 })] r
      (by decide) (by decide) hpb⟩

/-! ### Settle ordering within one report (C3) -/

/-- Is m a MiningStart system message for worker key W? -/
def isMiningStartFor (W : Nat) : GKMessage → Bool
  | GKMessage.system _ (SystemEvent.WorkerEvent e) =>
    match e.event with
    | WorkerEvent.MiningStart _ _ => e.pubkey == W
    | _ => false
  | _ => false

/-- The record keyed W (when present) has no active mining session. -/
def miningOff (st : Workers) (W : Nat) : Prop :=
  ∀ wi, findWorker st W = some wi → wi.state.mining_state = none

/-- The tag list never shows a heartbeat settle of W after a
MiningStop settle of W. -/
def tagsOkFor (W : Nat) (tags : List SettleTag) : Prop :=
  ∀ l1 l2, tags = l1 ++ SettleTag.miningStopSettle W :: l2 →
    SettleTag.heartbeatSettle W ∉ l2

/-- Does the list contain a heartbeat settle tag (of any worker)? -/
def anyHb (tags : List SettleTag) : Bool :=
  tags.any (fun t =>
    match t with
    | SettleTag.heartbeatSettle _ => true
    | _ => false)

/-- The claim as stated: across all workers, no settle entry produced
by a live heartbeat appears after one produced by a MiningStop. -/
def noHbAfterStop : List SettleTag → Bool
  | [] => true
  | SettleTag.miningStopSettle _ :: rest => !(anyHb rest) && noHbAfterStop rest
  | SettleTag.heartbeatSettle _ :: rest => noHbAfterStop rest

theorem tagsOkFor_nil (W : Nat) : tagsOkFor W [] := by
  intro l1 l2 h
  exact absurd h (by simp)

theorem tagsOkFor_cons (W : Nat) (x : SettleTag) (t : List SettleTag)
    (ht : tagsOkFor W t)
    (hx : x = SettleTag.miningStopSettle W →
      SettleTag.heartbeatSettle W ∉ t) : tagsOkFor W (x :: t) := by
  intro l1 l2 heq
  cases l1 with
  | nil =>
    simp only [List.nil_append, List.cons.injEq] at heq
    rw [← heq.2]
    exact hx heq.1
  | cons a l1t =>
    simp only [List.cons_append, List.cons.injEq] at heq
    exact ht l1t l2 heq.2

/-- The worker state stored under key k carries pubkey k (given the
map invariant). -/
theorem findWorker_state_pubkey (st : Workers) (k : Nat) (wi : WorkerInfo)
    (hwf : workerKeysConsistent st) (h : findWorker st k = some wi) :
    wi.state.pubkey = k := by
  unfold findWorker at h
  cases hf : st.find? (fun p => p.1 == k) with
  | none => rw [hf] at h; simp at h
  | some pr =>
    rw [hf] at h
    have hpr := Option.some.inj h
    have hkey := List.find?_some hf
    have hkey2 : pr.1 = k := by simpa using hkey
    have hmem := List.mem_of_find?_eq_some hf
    rw [← hpr]
    rw [hwf pr hmem]
    exact hkey2

/-- findWorker through the replay map. -/
theorem findWorker_replay (block : BlockInfo) (ev : SystemEvent)
    (st : Workers) (k : Nat) :
    findWorker (replayEvent block ev st) k
      = (findWorker st k).map (fun wi =>
        { wi with
            state := (WorkerState.process_event 0 block wi.state ev).1,
            waiting_heartbeats := wi.waiting_heartbeats ++
              heartbeatBlocks
                (WorkerState.process_event 0 block wi.state ev).2 }) := by
  induction st with
  | nil => simp [findWorker, replayEvent]
  | cons p rest ih =>
    cases hb : (p.1 == k) with
    | true =>
      simp only [replayEvent, List.map_cons, findWorker, List.find?, hb]
      rfl
    | false =>
      simp only [replayEvent, List.map_cons, findWorker, List.find?, hb]
      exact ih

/-- process_event never changes the stored pubkey. -/
theorem process_event_pubkey (iters : Nat) (block : BlockInfo)
    (s : WorkerState) (ev : SystemEvent) :
    (WorkerState.process_event iters block s ev).1.pubkey = s.pubkey := by
  cases ev with
  | WorkerEvent e =>
    by_cases hpk : e.pubkey ≠ s.pubkey
    · simp [WorkerState.process_event, hpk]
    · cases hev : e.event with
      | Registered c => simp [WorkerState.process_event, hpk, hev]
      | BenchStart d => simp [WorkerState.process_event, hpk, hev]
      | BenchScore sc => simp [WorkerState.process_event, hpk, hev]
      | MiningStart sid iv => simp [WorkerState.process_event, hpk, hev]
      | MiningStop => simp [WorkerState.process_event, hpk, hev]
      | MiningEnterUnresponsive =>
        cases hms : s.mining_state with
        | none => simp [WorkerState.process_event, hpk, hev, hms]
        | some mi =>
          by_cases hst : mi.state = MiningState.Mining <;>
            simp [WorkerState.process_event, hpk, hev, hms, hst]
      | MiningExitUnresponsive =>
        cases hms : s.mining_state with
        | none => simp [WorkerState.process_event, hpk, hev, hms]
        | some mi =>
          by_cases hst : mi.state = MiningState.Paused <;>
            simp [WorkerState.process_event, hpk, hev, hms, hst]
  | HeartbeatChallenge c =>
    cases hreg : s.registered with
    | false =>
      simp [WorkerState.process_event, WorkerState.handle_heartbeat_challenge,
        hreg]
    | true =>
      cases hms : s.mining_state with
      | none =>
        simp [WorkerState.process_event,
          WorkerState.handle_heartbeat_challenge, hreg, hms]
      | some mi =>
        cases hst : mi.state with
        | Paused =>
          simp [WorkerState.process_event,
            WorkerState.handle_heartbeat_challenge, hreg, hms, hst]
        | Mining =>
          by_cases hx : Nat.xor s.hashed_id c.seed ≤ c.online_target <;>
            simp [WorkerState.process_event,
              WorkerState.handle_heartbeat_challenge, hreg, hms, hst, hx]

/-- If mining_state is None it stays None under any event that is not
a MiningStart for this worker. -/
theorem process_event_none_preserved (iters : Nat) (block : BlockInfo)
    (s : WorkerState) (ev : SystemEvent) (hnone : s.mining_state = none)
    (hnostart : ∀ e, ev = SystemEvent.WorkerEvent e →
      e.pubkey = s.pubkey →
      ∀ sid iv, e.event ≠ WorkerEvent.MiningStart sid iv) :
    (WorkerState.process_event iters block s ev).1.mining_state = none := by
  cases ev with
  | WorkerEvent e =>
    by_cases hpk : e.pubkey ≠ s.pubkey
    · simp [WorkerState.process_event, hpk, hnone]
    · have hpk2 : e.pubkey = s.pubkey := by
        by_contra hc
        exact hpk hc
      cases hev : e.event with
      | Registered c => simp [WorkerState.process_event, hpk, hev, hnone]
      | BenchStart d => simp [WorkerState.process_event, hpk, hev, hnone]
      | BenchScore sc => simp [WorkerState.process_event, hpk, hev, hnone]
      | MiningStart sid iv =>
        exact absurd hev (hnostart e rfl hpk2 sid iv)
      | MiningStop => simp [WorkerState.process_event, hpk, hev]
      | MiningEnterUnresponsive =>
        simp [WorkerState.process_event, hpk, hev, hnone]
      | MiningExitUnresponsive =>
        simp [WorkerState.process_event, hpk, hev, hnone]
  | HeartbeatChallenge c =>
    cases hreg : s.registered with
    | false =>
      simp [WorkerState.process_event, WorkerState.handle_heartbeat_challenge,
        hreg, hnone]
    | true =>
      simp [WorkerState.process_event, WorkerState.handle_heartbeat_challenge,
        hreg, hnone]

theorem findWorker_update_map (st : Workers) (k : Nat)
    (f : WorkerInfo → WorkerInfo) :
    findWorker (updateWorker st k f) k = (findWorker st k).map f := by
  induction st with
  | nil => simp [findWorker, updateWorker]
  | cons p rest ih =>
    cases hb : (p.1 == k) with
    | true =>
      have hp : p.1 = k := by simpa using hb
      simp [findWorker, updateWorker, List.find?, hb, hp]
    | false =>
      have hp : ¬ p.1 = k := by simpa using hb
      simp only [findWorker, updateWorker, List.map_cons, List.find?,
        hb, if_neg hp]
      exact ih

theorem findWorker_insert_cases (st : Workers) (k : Nat)
    (wi : WorkerInfo) :
    findWorker (insertWorker st k wi) k = some wi ∨
    findWorker (insertWorker st k wi) k = findWorker st k := by
  induction st with
  | nil => exact Or.inl (by simp [findWorker, insertWorker, List.find?])
  | cons p rest ih =>
    simp only [insertWorker]
    by_cases h1 : k < p.1
    · rw [if_pos h1]
      exact Or.inl (by simp [findWorker, List.find?])
    · rw [if_neg h1]
      by_cases h2 : k = p.1
      · rw [if_pos h2]
        exact Or.inr rfl
      · have hb : (p.1 == k) = false := by
          simp
          exact fun he => h2 he.symm
        rw [if_neg h2]
        simp only [findWorker, List.find?, hb]
        exact ih

theorem mem_updateWorker_keyed (st : Workers) (k : Nat)
    (f : WorkerInfo → WorkerInfo) (p : Nat × WorkerInfo)
    (hp : p ∈ updateWorker st k f) :
    ∃ p0 ∈ st, p = p0 ∨ (p0.1 = k ∧ p = (p0.1, f p0.2)) := by
  obtain ⟨p0, hp0, he⟩ := List.mem_map.mp hp
  by_cases hk : p0.1 = k
  · rw [if_pos hk] at he
    exact ⟨p0, hp0, Or.inr ⟨hk, he.symm⟩⟩
  · rw [if_neg hk] at he
    exact ⟨p0, hp0, Or.inl he.symm⟩

theorem WF_updateWorker (st : Workers) (k : Nat)
    (f : WorkerInfo → WorkerInfo) (hwf : workerKeysConsistent st)
    (hf : ∀ w, (f w).state.pubkey = w.state.pubkey) :
    workerKeysConsistent (updateWorker st k f) := by
  intro p hp
  obtain ⟨p0, hp0, he⟩ := mem_updateWorker_keyed st k f p hp
  rcases he with h | ⟨hk, h⟩
  · rw [h]; exact hwf p0 hp0
  · rw [h]
    show (f p0.2).state.pubkey = p0.1
    rw [hf p0.2]
    exact hwf p0 hp0

theorem miningOff_updateWorker (st : Workers) (k W : Nat)
    (f : WorkerInfo → WorkerInfo) (hoff : miningOff st W)
    (hf : ∀ w, (f w).state = w.state) :
    miningOff (updateWorker st k f) W := by
  intro wi h
  by_cases hk : W = k
  · subst hk
    rw [findWorker_update_map] at h
    cases hfw : findWorker st W with
    | none => rw [hfw] at h; simp at h
    | some wi0 =>
      rw [hfw] at h
      have : f wi0 = wi := Option.some.inj h
      rw [← this, hf wi0]
      exact hoff wi0 hfw
  · rw [findWorker_update_other st k W f hk] at h
    exact hoff wi h

theorem WF_replay (block : BlockInfo) (ev : SystemEvent) (st : Workers)
    (hwf : workerKeysConsistent st) :
    workerKeysConsistent (replayEvent block ev st) := by
  intro p hp
  obtain ⟨p0, hp0, he⟩ := List.mem_map.mp hp
  rw [← he]
  show (WorkerState.process_event 0 block p0.2.state ev).1.pubkey = p0.1
  rw [process_event_pubkey]
  exact hwf p0 hp0

theorem WF_reset_flags (st : Workers) (hwf : workerKeysConsistent st) :
    workerKeysConsistent
      (st.map (fun p => (p.1, { p.2 with heartbeat_flag := false }))) := by
  intro p hp
  obtain ⟨p0, hp0, he⟩ := List.mem_map.mp hp
  rw [← he]
  exact hwf p0 hp0

/-- One mining-report message only rewrites the found record with a
record carrying the same worker state (the pop and tokenomic updates
never touch .state), so the per-key view of states is preserved. -/
theorem mining_step_states (block : BlockInfo) (ss : Nat) (params : Params)
    (st : Workers) (o : MessageOrigin) (ev : MiningReportEvent)
    (r : Workers × List (SettleInfo × SettleTag))
    (hr : process_mining_report block ss params st o ev = some r) :
    ∀ k, findWorker r.1 k = findWorker st k ∨
      ∃ wi wi2, findWorker st k = some wi ∧ findWorker r.1 k = some wi2 ∧
        wi2.state = wi.state := by
  have hupd : ∀ (pk : Nat) (wiX wi : WorkerInfo),
      findWorker st pk = some wi → wiX.state = wi.state →
      ∀ k, findWorker (updateWorker st pk (fun _ => wiX)) k
          = findWorker st k ∨
        ∃ wi0 wi2, findWorker st k = some wi0 ∧
          findWorker (updateWorker st pk (fun _ => wiX)) k = some wi2 ∧
          wi2.state = wi0.state := by
    intro pk wiX wi hfind hstate k
    by_cases hk : k = pk
    · subst hk
      exact Or.inr ⟨wi, wiX, hfind,
        findWorker_update_self st k (fun _ => wiX) wi hfind, hstate⟩
    · exact Or.inl (findWorker_update_other st pk k _ hk)
  cases ev with
  | Heartbeat sid cb ct iters =>
    cases o with
    | Worker pk =>
      cases hf : findWorker st pk with
      | none =>
        simp only [process_mining_report, hf, Option.some.injEq] at hr
        rw [← hr]
        exact fun k => Or.inl rfl
      | some wi =>
        by_cases hh : wi.waiting_heartbeats.head? = some cb
        · cases hm : wi.state.mining_state with
          | none =>
            simp [process_mining_report, hf, hh, hm] at hr
            rw [← hr]
            exact hupd pk _ wi hf rfl
          | some mi =>
            by_cases hs : sid = mi.session_id
            · by_cases hu : wi.unresponsive = true
              · simp [process_mining_report, hf, hh, hm, hs, hu] at hr
                rw [← hr]
                exact hupd pk _ wi hf rfl
              · simp [process_mining_report, hf, hh, hm, hs, hu] at hr
                rw [← hr]
                exact hupd pk _ wi hf rfl
            · simp [process_mining_report, hf, hh, hm, hs] at hr
              rw [← hr]
              exact hupd pk _ wi hf rfl
        · simp [process_mining_report, hf, hh] at hr
    | Pallet n =>
      simp only [process_mining_report, Option.some.injEq] at hr
      rw [← hr]
      exact fun k => Or.inl rfl
    | Contract n =>
      simp only [process_mining_report, Option.some.injEq] at hr
      rw [← hr]
      exact fun k => Or.inl rfl
    | AccountId n =>
      simp only [process_mining_report, Option.some.injEq] at hr
      rw [← hr]
      exact fun k => Or.inl rfl
    | Gatekeeper =>
      simp only [process_mining_report, Option.some.injEq] at hr
      rw [← hr]
      exact fun k => Or.inl rfl

/-- The settle entries of one mining-report message: none, or a single
heartbeat-tagged entry for a worker whose record is currently
mining. -/
theorem mining_step_tags (block : BlockInfo) (ss : Nat) (params : Params)
    (st : Workers) (o : MessageOrigin) (ev : MiningReportEvent)
    (r : Workers × List (SettleInfo × SettleTag))
    (hr : process_mining_report block ss params st o ev = some r) :
    r.2.map Prod.snd = [] ∨
    ∃ pk, r.2.map Prod.snd = [SettleTag.heartbeatSettle pk] ∧
      ∃ wi mi, findWorker st pk = some wi ∧
        wi.state.mining_state = some mi := by
  cases ev with
  | Heartbeat sid cb ct iters =>
    cases o with
    | Worker pk =>
      cases hf : findWorker st pk with
      | none =>
        simp only [process_mining_report, hf, Option.some.injEq] at hr
        rw [← hr]
        exact Or.inl rfl
      | some wi =>
        by_cases hh : wi.waiting_heartbeats.head? = some cb
        · cases hm : wi.state.mining_state with
          | none =>
            simp [process_mining_report, hf, hh, hm] at hr
            rw [← hr]
            exact Or.inl rfl
          | some mi =>
            by_cases hs : sid = mi.session_id
            · by_cases hu : wi.unresponsive = true
              · simp [process_mining_report, hf, hh, hm, hs, hu] at hr
                rw [← hr]
                exact Or.inl rfl
              · simp [process_mining_report, hf, hh, hm, hs, hu] at hr
                rw [← hr]
                exact Or.inr ⟨pk, rfl, wi, mi, hf, hm⟩
            · simp [process_mining_report, hf, hh, hm, hs] at hr
              rw [← hr]
              exact Or.inl rfl
        · simp [process_mining_report, hf, hh] at hr
    | Pallet n =>
      simp only [process_mining_report, Option.some.injEq] at hr
      rw [← hr]
      exact Or.inl rfl
    | Contract n =>
      simp only [process_mining_report, Option.some.injEq] at hr
      rw [← hr]
      exact Or.inl rfl
    | AccountId n =>
      simp only [process_mining_report, Option.some.injEq] at hr
      rw [← hr]
      exact Or.inl rfl
    | Gatekeeper =>
      simp only [process_mining_report, Option.some.injEq] at hr
      rw [← hr]
      exact Or.inl rfl

theorem miningOff_mining_step (block : BlockInfo) (ss : Nat)
    (params : Params) (st : Workers) (o : MessageOrigin)
    (ev : MiningReportEvent) (r : Workers × List (SettleInfo × SettleTag))
    (W : Nat) (hr : process_mining_report block ss params st o ev = some r)
    (hoff : miningOff st W) : miningOff r.1 W := by
  intro wi h
  rcases mining_step_states block ss params st o ev r hr W with h0 | h0
  · exact hoff wi (by rw [← h0]; exact h)
  · obtain ⟨wi0, wi2, hf0, hf2, hst⟩ := h0
    rw [h] at hf2
    have : wi = wi2 := Option.some.inj hf2
    rw [this, hst]
    exact hoff wi0 hf0

theorem WF_mining_step (block : BlockInfo) (ss : Nat) (params : Params)
    (st : Workers) (o : MessageOrigin) (ev : MiningReportEvent)
    (r : Workers × List (SettleInfo × SettleTag))
    (hr : process_mining_report block ss params st o ev = some r)
    (hwf : workerKeysConsistent st) : workerKeysConsistent r.1 := by
  have hupd : ∀ (pk : Nat) (wiX wi : WorkerInfo),
      findWorker st pk = some wi → wiX.state = wi.state →
      workerKeysConsistent (updateWorker st pk (fun _ => wiX)) := by
    intro pk wiX wi hfind hstate
    intro p hp
    obtain ⟨p0, hp0, he⟩ := mem_updateWorker_keyed st pk _ p hp
    rcases he with h | ⟨hk, h⟩
    · rw [h]; exact hwf p0 hp0
    · rw [h]
      show wiX.state.pubkey = p0.1
      rw [hstate, findWorker_state_pubkey st pk wi hwf hfind, hk]
  cases ev with
  | Heartbeat sid cb ct iters =>
    cases o with
    | Worker pk =>
      cases hf : findWorker st pk with
      | none =>
        simp only [process_mining_report, hf, Option.some.injEq] at hr
        rw [← hr]
        exact hwf
      | some wi =>
        by_cases hh : wi.waiting_heartbeats.head? = some cb
        · cases hm : wi.state.mining_state with
          | none =>
            simp [process_mining_report, hf, hh, hm] at hr
            rw [← hr]
            exact hupd pk _ wi hf rfl
          | some mi =>
            by_cases hs : sid = mi.session_id
            · by_cases hu : wi.unresponsive = true
              · simp [process_mining_report, hf, hh, hm, hs, hu] at hr
                rw [← hr]
                exact hupd pk _ wi hf rfl
              · simp [process_mining_report, hf, hh, hm, hs, hu] at hr
                rw [← hr]
                exact hupd pk _ wi hf rfl
            · simp [process_mining_report, hf, hh, hm, hs] at hr
              rw [← hr]
              exact hupd pk _ wi hf rfl
        · simp [process_mining_report, hf, hh] at hr
    | Pallet n =>
      simp only [process_mining_report, Option.some.injEq] at hr
      rw [← hr]
      exact hwf
    | Contract n =>
      simp only [process_mining_report, Option.some.injEq] at hr
      rw [← hr]
      exact hwf
    | AccountId n =>
      simp only [process_mining_report, Option.some.injEq] at hr
      rw [← hr]
      exact hwf
    | Gatekeeper =>
      simp only [process_mining_report, Option.some.injEq] at hr
      rw [← hr]
      exact hwf

/-- Structure of the map produced by one system event (pallet origin):
replay over the (possibly lazily extended) map, optionally followed by
a state-preserving economic rewrite of the event's worker. -/
theorem system_step_fst_cases (hash : Nat → Nat) (block : BlockInfo)
    (st : Workers) (o : MessageOrigin) (ev : SystemEvent)
    (hpal : o.is_pallet = true) :
    ∃ st1 : Workers,
      (st1 = st ∨ (∃ e c, ev = SystemEvent.WorkerEvent e ∧
        e.event = WorkerEvent.Registered c ∧
        st1 = insertWorker st e.pubkey (WorkerInfo.new hash e.pubkey))) ∧
      ((process_system_event hash block st o ev).1
          = replayEvent block ev st1 ∨
       (∃ e f, ev = SystemEvent.WorkerEvent e ∧
          (∀ w, (f w).state = w.state) ∧
          (process_system_event hash block st o ev).1
            = updateWorker (replayEvent block ev st1) e.pubkey f)) := by
  cases ev with
  | HeartbeatChallenge c =>
    refine ⟨st, Or.inl rfl, Or.inl ?_⟩
    simp [process_system_event, hpal]
  | WorkerEvent e =>
    cases hev : e.event with
    | Registered c =>
      refine ⟨insertWorker st e.pubkey (WorkerInfo.new hash e.pubkey),
        Or.inr ⟨e, c, rfl, hev, rfl⟩, ?_⟩
      cases hfw : findWorker (replayEvent block (SystemEvent.WorkerEvent e)
          (insertWorker st e.pubkey (WorkerInfo.new hash e.pubkey)))
          e.pubkey with
      | none =>
        refine Or.inl ?_
        simp [process_system_event, hpal, hev, hfw]
      | some w =>
        refine Or.inr ⟨e, fun w2 =>
          { w2 with tokenomic :=
              { w2.tokenomic with confidence_level := c } },
          rfl, fun w2 => rfl, ?_⟩
        simp [process_system_event, hpal, hev, hfw]
    | BenchStart d =>
      refine ⟨st, Or.inl rfl, Or.inl ?_⟩
      cases hfw : findWorker (replayEvent block
          (SystemEvent.WorkerEvent e) st) e.pubkey with
      | none => simp [process_system_event, hpal, hev, hfw]
      | some w => simp [process_system_event, hpal, hev, hfw]
    | BenchScore sc =>
      refine ⟨st, Or.inl rfl, ?_⟩
      cases hfw : findWorker (replayEvent block
          (SystemEvent.WorkerEvent e) st) e.pubkey with
      | none =>
        refine Or.inl ?_
        simp [process_system_event, hpal, hev, hfw]
      | some w =>
        refine Or.inr ⟨e, fun w2 =>
          { w2 with tokenomic :=
              { w2.tokenomic with p_bench := fp sc } },
          rfl, fun w2 => rfl, ?_⟩
        simp [process_system_event, hpal, hev, hfw]
    | MiningStart sid iv =>
      refine ⟨st, Or.inl rfl, ?_⟩
      cases hfw : findWorker (replayEvent block
          (SystemEvent.WorkerEvent e) st) e.pubkey with
      | none =>
        refine Or.inl ?_
        simp [process_system_event, hpal, hev, hfw]
      | some w =>
        refine Or.inr ⟨e, fun w2 =>
          { w2 with unresponsive := false, tokenomic :=
              { v := iv, v_last := iv, v_update_at := block.now_ms,
                iteration_last := 0, challenge_time_last := block.now_ms,
                p_bench := w2.tokenomic.p_bench,
                p_instant := w2.tokenomic.p_bench,
                confidence_level := w2.tokenomic.confidence_level } },
          rfl, fun w2 => rfl, ?_⟩
        simp [process_system_event, hpal, hev, hfw]
    | MiningStop =>
      refine ⟨st, Or.inl rfl, Or.inl ?_⟩
      cases hfw : findWorker (replayEvent block
          (SystemEvent.WorkerEvent e) st) e.pubkey with
      | none => simp [process_system_event, hpal, hev, hfw]
      | some w => simp [process_system_event, hpal, hev, hfw]
    | MiningEnterUnresponsive =>
      refine ⟨st, Or.inl rfl, Or.inl ?_⟩
      cases hfw : findWorker (replayEvent block
          (SystemEvent.WorkerEvent e) st) e.pubkey with
      | none => simp [process_system_event, hpal, hev, hfw]
      | some w => simp [process_system_event, hpal, hev, hfw]
    | MiningExitUnresponsive =>
      refine ⟨st, Or.inl rfl, Or.inl ?_⟩
      cases hfw : findWorker (replayEvent block
          (SystemEvent.WorkerEvent e) st) e.pubkey with
      | none => simp [process_system_event, hpal, hev, hfw]
      | some w => simp [process_system_event, hpal, hev, hfw]

/-- The settle entries of one system event: none, or a single
MiningStop-tagged entry for the event's worker (pallet origin). -/
theorem system_step_tags (hash : Nat → Nat) (block : BlockInfo)
    (st : Workers) (o : MessageOrigin) (ev : SystemEvent) :
    (process_system_event hash block st o ev).2.map Prod.snd = [] ∨
    ∃ e, ev = SystemEvent.WorkerEvent e ∧
      e.event = WorkerEvent.MiningStop ∧ o.is_pallet = true ∧
      (process_system_event hash block st o ev).2.map Prod.snd
        = [SettleTag.miningStopSettle e.pubkey] := by
  cases hpal : o.is_pallet with
  | false => exact Or.inl (by simp [process_system_event, hpal])
  | true =>
    cases ev with
    | HeartbeatChallenge c =>
      exact Or.inl (by simp [process_system_event, hpal])
    | WorkerEvent e =>
      cases hev : e.event with
      | Registered c =>
        refine Or.inl ?_
        cases hfw : findWorker (replayEvent block (SystemEvent.WorkerEvent e)
            (insertWorker st e.pubkey (WorkerInfo.new hash e.pubkey)))
            e.pubkey with
        | none => simp [process_system_event, hpal, hev, hfw]
        | some w => simp [process_system_event, hpal, hev, hfw]
      | BenchStart d =>
        refine Or.inl ?_
        cases hfw : findWorker (replayEvent block
            (SystemEvent.WorkerEvent e) st) e.pubkey with
        | none => simp [process_system_event, hpal, hev, hfw]
        | some w => simp [process_system_event, hpal, hev, hfw]
      | BenchScore sc =>
        refine Or.inl ?_
        cases hfw : findWorker (replayEvent block
            (SystemEvent.WorkerEvent e) st) e.pubkey with
        | none => simp [process_system_event, hpal, hev, hfw]
        | some w => simp [process_system_event, hpal, hev, hfw]
      | MiningStart sid iv =>
        refine Or.inl ?_
        cases hfw : findWorker (replayEvent block
            (SystemEvent.WorkerEvent e) st) e.pubkey with
        | none => simp [process_system_event, hpal, hev, hfw]
        | some w => simp [process_system_event, hpal, hev, hfw]
      | MiningStop =>
        cases hfw : findWorker (replayEvent block
            (SystemEvent.WorkerEvent e) st) e.pubkey with
        | none =>
          refine Or.inl ?_
          simp [process_system_event, hpal, hev, hfw]
        | some w =>
          refine Or.inr ⟨e, rfl, hev, rfl, ?_⟩
          simp [process_system_event, hpal, hev, hfw]
      | MiningEnterUnresponsive =>
        refine Or.inl ?_
        cases hfw : findWorker (replayEvent block
            (SystemEvent.WorkerEvent e) st) e.pubkey with
        | none => simp [process_system_event, hpal, hev, hfw]
        | some w => simp [process_system_event, hpal, hev, hfw]
      | MiningExitUnresponsive =>
        refine Or.inl ?_
        cases hfw : findWorker (replayEvent block
            (SystemEvent.WorkerEvent e) st) e.pubkey with
        | none => simp [process_system_event, hpal, hev, hfw]
        | some w => simp [process_system_event, hpal, hev, hfw]

/-- Replaying an event that is not a MiningStart for W keeps W's
record out of mining. -/
theorem miningOff_replay (block : BlockInfo) (ev : SystemEvent)
    (st1 : Workers) (W : Nat) (hwf1 : workerKeysConsistent st1)
    (hoff1 : miningOff st1 W)
    (hns : ∀ e, ev = SystemEvent.WorkerEvent e → e.pubkey = W →
      ∀ sid iv, e.event ≠ WorkerEvent.MiningStart sid iv) :
    miningOff (replayEvent block ev st1) W := by
  intro wi h
  rw [findWorker_replay] at h
  cases hfw : findWorker st1 W with
  | none => rw [hfw] at h; simp at h
  | some wi0 =>
    rw [hfw] at h
    have hwi := Option.some.inj h
    rw [← hwi]
    show (WorkerState.process_event 0 block wi0.state ev).1.mining_state = none
    refine process_event_none_preserved 0 block wi0.state ev
      (hoff1 wi0 hfw) ?_
    intro e hev hpk sid iv
    refine hns e hev ?_ sid iv
    rw [hpk]
    exact findWorker_state_pubkey st1 W wi0 hwf1 hfw

theorem WF_insert_new (hash : Nat → Nat) (st : Workers) (k : Nat)
    (hwf : workerKeysConsistent st) :
    workerKeysConsistent (insertWorker st k (WorkerInfo.new hash k)) :=
  workerKeysConsistent_insert st k _ hwf rfl

/-- One system event preserves the key/state invariant. -/
theorem WF_system_step (hash : Nat → Nat) (block : BlockInfo)
    (st : Workers) (o : MessageOrigin) (ev : SystemEvent)
    (hwf : workerKeysConsistent st) :
    workerKeysConsistent (process_system_event hash block st o ev).1 := by
  cases hpal : o.is_pallet with
  | false =>
    have : (process_system_event hash block st o ev).1 = st := by
      simp [process_system_event, hpal]
    rw [this]
    exact hwf
  | true =>
    obtain ⟨st1, hst1, hshape⟩ :=
      system_step_fst_cases hash block st o ev hpal
    have hwf1 : workerKeysConsistent st1 := by
      rcases hst1 with h | ⟨e, c, _, _, h⟩
      · rw [h]; exact hwf
      · rw [h]; exact WF_insert_new hash st e.pubkey hwf
    rcases hshape with h | ⟨e, f, _, hf, h⟩
    · rw [h]
      exact WF_replay block ev st1 hwf1
    · rw [h]
      exact WF_updateWorker _ e.pubkey f
        (WF_replay block ev st1 hwf1)
        (fun w => by rw [hf w])

/-- One system event that is not a MiningStart for W keeps W's record
out of mining. -/
theorem miningOff_system_step (hash : Nat → Nat) (block : BlockInfo)
    (st : Workers) (o : MessageOrigin) (ev : SystemEvent) (W : Nat)
    (hwf : workerKeysConsistent st)
    (hns : isMiningStartFor W (GKMessage.system o ev) = false)
    (hoff : miningOff st W) :
    miningOff (process_system_event hash block st o ev).1 W := by
  cases hpal : o.is_pallet with
  | false =>
    have : (process_system_event hash block st o ev).1 = st := by
      simp [process_system_event, hpal]
    rw [this]
    exact hoff
  | true =>
    obtain ⟨st1, hst1, hshape⟩ :=
      system_step_fst_cases hash block st o ev hpal
    have hwf1 : workerKeysConsistent st1 := by
      rcases hst1 with h | ⟨e, c, _, _, h⟩
      · rw [h]; exact hwf
      · rw [h]; exact WF_insert_new hash st e.pubkey hwf
    have hoff1 : miningOff st1 W := by
      rcases hst1 with h | ⟨e, c, _, _, h⟩
      · rw [h]; exact hoff
      · rw [h]
        intro wi hfi
        by_cases hk : W = e.pubkey
        · rw [hk] at hfi
          rcases findWorker_insert_cases st e.pubkey
              (WorkerInfo.new hash e.pubkey) with h2 | h2
          · rw [hfi] at h2
            rw [Option.some.inj h2]
            rfl
          · rw [h2] at hfi
            rw [← hk] at hfi
            exact hoff wi hfi
        · rw [findWorker_insert_other st e.pubkey W _ hk] at hfi
          exact hoff wi hfi
    have hnostart : ∀ e, ev = SystemEvent.WorkerEvent e → e.pubkey = W →
        ∀ sid iv, e.event ≠ WorkerEvent.MiningStart sid iv := by
      intro e hev hpk sid iv hcontra
      rw [hev] at hns
      simp [isMiningStartFor, hcontra, hpk] at hns
    have hoffr : miningOff (replayEvent block ev st1) W :=
      miningOff_replay block ev st1 W hwf1 hoff1 hnostart
    rcases hshape with h | ⟨e, f, _, hf, h⟩
    · rw [h]
      exact hoffr
    · rw [h]
      exact miningOff_updateWorker _ e.pubkey W f hoffr hf

/-- After a (pallet-origin) MiningStop for worker e.pubkey, that
record is out of mining. -/
theorem system_step_stop_off (hash : Nat → Nat) (block : BlockInfo)
    (st : Workers) (o : MessageOrigin) (e : WorkerEventWithKey)
    (hwf : workerKeysConsistent st) (hpal : o.is_pallet = true)
    (hev : e.event = WorkerEvent.MiningStop) :
    miningOff (process_system_event hash block st o
      (SystemEvent.WorkerEvent e)).1 e.pubkey := by
  obtain ⟨st1, hst1, hshape⟩ :=
    system_step_fst_cases hash block st o (SystemEvent.WorkerEvent e) hpal
  have hst1e : st1 = st := by
    rcases hst1 with h | ⟨e2, c, he2, hc, h⟩
    · exact h
    · exfalso
      have he3 : e = e2 := by
        injection he2
      rw [← he3, hev] at hc
      exact absurd hc (by simp)
  rw [hst1e] at hshape
  have hoffr : miningOff (replayEvent block (SystemEvent.WorkerEvent e) st)
      e.pubkey := by
    intro wi h
    rw [findWorker_replay] at h
    cases hfw : findWorker st e.pubkey with
    | none => rw [hfw] at h; simp at h
    | some wi0 =>
      rw [hfw] at h
      rw [← Option.some.inj h]
      show (WorkerState.process_event 0 block wi0.state
        (SystemEvent.WorkerEvent e)).1.mining_state = none
      have hpk : e.pubkey = wi0.state.pubkey :=
        (findWorker_state_pubkey st e.pubkey wi0 hwf hfw).symm
      simp [WorkerState.process_event, hpk, hev]
  rcases hshape with h | ⟨e2, f, _, hf, h⟩
  · rw [h]
    exact hoffr
  · rw [h]
    exact miningOff_updateWorker _ e2.pubkey e.pubkey f hoffr hf

/-- Along a block with no MiningStart for W, starting from a state
where W is out of mining, no heartbeat settle for W is ever emitted
and W stays out of mining. -/
theorem fold_no_hb (hash : Nat → Nat) (block : BlockInfo) (ss : Nat)
    (params : Params) (W : Nat) :
    ∀ (msgs : List GKMessage) (st : Workers)
      (r : Workers × List (SettleInfo × SettleTag)),
      workerKeysConsistent st →
      (∀ m ∈ msgs, isMiningStartFor W m = false) →
      miningOff st W →
      processMessageList hash block ss params st msgs = some r →
      (SettleTag.heartbeatSettle W ∉ r.2.map Prod.snd) ∧
        miningOff r.1 W ∧ workerKeysConsistent r.1 := by
  intro msgs
  induction msgs with
  | nil =>
    intro st r hwf _ hoff hr
    simp only [processMessageList, Option.some.injEq] at hr
    rw [← hr]
    exact ⟨by simp, hoff, hwf⟩
  | cons m rest ih =>
    intro st r hwf hns hoff hr
    simp only [processMessageList] at hr
    cases ho : processOneMessage hash block ss params st m with
    | none => rw [ho] at hr; simp at hr
    | some r1 =>
      rw [ho] at hr
      cases hrec : processMessageList hash block ss params r1.1 rest with
      | none => simp only [hrec] at hr; simp at hr
      | some r2 =>
        simp only [hrec, Option.some.injEq] at hr
        have htl : ∀ m2 ∈ rest, isMiningStartFor W m2 = false :=
          fun m2 hm2 => hns m2 (List.mem_cons_of_mem m hm2)
        have hstep : (SettleTag.heartbeatSettle W ∉ r1.2.map Prod.snd) ∧
            miningOff r1.1 W ∧ workerKeysConsistent r1.1 := by
          cases m with
          | mining o ev =>
            have hma : process_mining_report block ss params st o ev
                = some r1 := by simpa [processOneMessage] using ho
            refine ⟨?_, miningOff_mining_step block ss params st o ev r1 W
              hma hoff, WF_mining_step block ss params st o ev r1 hma hwf⟩
            rcases mining_step_tags block ss params st o ev r1 hma with
              h | ⟨pk, htags, wi, mi, hfw, hmi⟩
            · rw [h]; simp
            · rw [htags]
              intro hmem
              have hpk : pk = W := by
                have := List.mem_singleton.mp hmem
                injection this.symm
              rw [hpk] at hfw
              rw [hoff wi hfw] at hmi
              exact absurd hmi (by simp)
          | system o ev =>
            have hso : r1 = process_system_event hash block st o ev := by
              simpa [processOneMessage] using ho.symm
            rw [hso]
            refine ⟨?_, miningOff_system_step hash block st o ev W hwf
              (hns _ (List.mem_cons_self (GKMessage.system o ev) rest)) hoff,
              WF_system_step hash block st o ev hwf⟩
            rcases system_step_tags hash block st o ev with
              h | ⟨e, _, _, _, h⟩
            · rw [h]; simp
            · rw [h]
              intro hmem
              have := List.mem_singleton.mp hmem
              exact absurd this (by simp)
        have hrest := ih r1.1 r2 hstep.2.2 htl hstep.2.1 hrec
        rw [← hr]
        refine ⟨?_, hrest.2.1, hrest.2.2⟩
        show SettleTag.heartbeatSettle W ∉ (r1.2 ++ r2.2).map Prod.snd
        rw [List.map_append]
        intro hmem
        rcases List.mem_append.mp hmem with h | h
        · exact hstep.1 h
        · exact hrest.1 h

/-- Along a block with no MiningStart for W, the settle tags never
show a heartbeat settle of W after a MiningStop settle of W. -/
theorem fold_tags_ok (hash : Nat → Nat) (block : BlockInfo) (ss : Nat)
    (params : Params) (W : Nat) :
    ∀ (msgs : List GKMessage) (st : Workers)
      (r : Workers × List (SettleInfo × SettleTag)),
      workerKeysConsistent st →
      (∀ m ∈ msgs, isMiningStartFor W m = false) →
      processMessageList hash block ss params st msgs = some r →
      tagsOkFor W (r.2.map Prod.snd) := by
  intro msgs
  induction msgs with
  | nil =>
    intro st r _ _ hr
    simp only [processMessageList, Option.some.injEq] at hr
    rw [← hr]
    exact tagsOkFor_nil W
  | cons m rest ih =>
    intro st r hwf hns hr
    simp only [processMessageList] at hr
    cases ho : processOneMessage hash block ss params st m with
    | none => rw [ho] at hr; simp at hr
    | some r1 =>
      rw [ho] at hr
      cases hrec : processMessageList hash block ss params r1.1 rest with
      | none => simp only [hrec] at hr; simp at hr
      | some r2 =>
        simp only [hrec, Option.some.injEq] at hr
        have htl : ∀ m2 ∈ rest, isMiningStartFor W m2 = false :=
          fun m2 hm2 => hns m2 (List.mem_cons_of_mem m hm2)
        rw [← hr]
        show tagsOkFor W ((r1.2 ++ r2.2).map Prod.snd)
        rw [List.map_append]
        cases m with
        | mining o ev =>
          have hma : process_mining_report block ss params st o ev
              = some r1 := by simpa [processOneMessage] using ho
          have ihr := ih r1.1 r2
            (WF_mining_step block ss params st o ev r1 hma hwf) htl hrec
          rcases mining_step_tags block ss params st o ev r1 hma with
            h | ⟨pk, htags, wi, mi, hfw, hmi⟩
          · rw [h]
            simpa using ihr
          · rw [htags]
            exact tagsOkFor_cons W _ _ ihr (fun hx => absurd hx (by simp))
        | system o ev =>
          have hso : r1 = process_system_event hash block st o ev := by
            simpa [processOneMessage] using ho.symm
          have hwf1 : workerKeysConsistent r1.1 := by
            rw [hso]
            exact WF_system_step hash block st o ev hwf
          have ihr := ih r1.1 r2 hwf1 htl hrec
          rcases system_step_tags hash block st o ev with
            h | ⟨e, hev, hstop, hpal, h⟩
          · rw [hso, h]
            simpa using ihr
          · rw [hso, h]
            refine tagsOkFor_cons W _ _ ihr ?_
            intro hx
            have hpkW : e.pubkey = W := by injection hx
            have hoff1 : miningOff r1.1 W := by
              rw [hso, hev]
              rw [← hpkW]
              exact system_step_stop_off hash block st o e hwf hpal hstop
            exact (fold_no_hb hash block ss params W rest r1.1 r2
              hwf1 htl hoff1 hrec).1

/-- A registered worker record keyed 1 that is not mining (C3
examples). -/
def c3WorkerA : WorkerInfo :=
  { state :=
      { pubkey := 1, hashed_id := 0, registered := true,
        bench_state := none, mining_state := none },
    waiting_heartbeats := [], unresponsive := false,
    tokenomic := tokenomicDefault, heartbeat_flag := false }

/-- A registered worker record keyed 2, mining in session 1 with a
pending challenge from block 2 (C3 examples). -/
def c3WorkerB : WorkerInfo :=
  { state :=
      { pubkey := 2, hashed_id := 0, registered := true,
        bench_state := none,
        mining_state := some
          { session_id := 1, state := MiningState.Mining,
            start_time := 12000, start_iter := 0 } },
    waiting_heartbeats := [2], unresponsive := false,
    tokenomic := tokenomicDefault, heartbeat_flag := false }

/-- **C3 counterexample.** The claim says that within one report every
live-heartbeat settle precedes every MiningStop settle, for every
sender-sequence ordering.  In this block the pallet's MiningStop for
worker 1 is drained before worker 2's live heartbeat, so the report
carries the MiningStop settle first and the heartbeat settle second:
the heartbeat settle does not precede the MiningStop settle. -/
theorem settle_order_counterexample :
    ((processBlock (fun _ => 0) test_params
        { block_number := 5, now_ms := 30000 }
        [(1, c3WorkerA), (2, c3WorkerB)]
        [GKMessage.system (MessageOrigin.Pallet 0)
          (SystemEvent.WorkerEvent
            { pubkey := 1, event := WorkerEvent.MiningStop }),
         GKMessage.mining (MessageOrigin.Worker 2)
          (MiningReportEvent.Heartbeat 1 2 12000 5000)]).map
      (fun r => noHbAfterStop r.2.2)) = some false := by
  decide

/-- **C3 (amended).** Per worker, and in the absence of a MiningStart
for that worker in the same block: within one emitted report, every
settle entry of worker W produced by a live heartbeat precedes every
settle entry of W produced by a MiningStop, whatever the
sender-sequence ordering of the block's messages — once W's MiningStop
settle is emitted, W's record is out of mining and (with no MiningStart
to revive it) can produce no further heartbeat settle.  Settle entries
of different workers interleave according to the drain order, given
the map invariant that each record stores the state of the worker it
is keyed by. -/
theorem settle_heartbeat_before_stop (hash : Nat → Nat) (params : Params)
    (block : BlockInfo) (st : Workers) (msgs : List GKMessage)
    (r : Workers × MiningInfoUpdateEvent × List SettleTag) (W : Nat)
    (hwf : workerKeysConsistent st)
    (hns : ∀ m ∈ msgs, isMiningStartFor W m = false)
    (hres : processBlock hash params block st msgs = some r) :
    tagsOkFor W r.2.2 := by
  simp only [processBlock] at hres
  cases hpm : processMessageList hash block
      ((st.map (fun p => p.2.tokenomic.share)).sum) params
      (st.map (fun p => (p.1, { p.2 with heartbeat_flag := false }))) msgs with
  | none => rw [hpm] at hres; simp at hres
  | some r0 =>
    rw [hpm] at hres
    have hres2 : ((block_post_process block params r0.1).1,
        ({ block_number := block.block_number, timestamp_ms := block.now_ms,
           offline := (block_post_process block params r0.1).2.1,
           recovered_to_online := (block_post_process block params r0.1).2.2,
           settle := r0.2.map Prod.fst } : MiningInfoUpdateEvent),
        r0.2.map Prod.snd) = r := Option.some.inj hres
    rw [← hres2]
    exact fold_tags_ok hash block _ params W msgs _ r0
      (WF_reset_flags st hwf) hns hpm

/-- Witness for C3: a block carrying only a MiningStop for worker 1
yields a report whose tags satisfy the per-worker ordering. -/
theorem settle_heartbeat_before_stop_witness :
    ∃ r, processBlock (fun _ => 0) test_params
        { block_number := 5, now_ms := 30000 } [(1, c3WorkerA)]
        [GKMessage.system (MessageOrigin.Pallet 0)
          (SystemEvent.WorkerEvent
            { pubkey := 1, event := WorkerEvent.MiningStop })] = some r ∧
      tagsOkFor 1 r.2.2 := by
  cases hpb : processBlock (fun _ => 0) test_params
      { block_number := 5, now_ms := 30000 } [(1, c3WorkerA)]
      [GKMessage.system (MessageOrigin.Pallet 0)
        (SystemEvent.WorkerEvent
          { pubkey := 1, event := WorkerEvent.MiningStop })] with
  | none => exact absurd hpb (by decide)
  | some r =>
    exact ⟨r, rfl, settle_heartbeat_before_stop (fun _ => 0) test_params
      { block_number := 5, now_ms := 30000 } [(1, c3WorkerA)]
      [GKMessage.system (MessageOrigin.Pallet 0)
        (SystemEvent.WorkerEvent
          { pubkey := 1, event := WorkerEvent.MiningStop })] r 1
      (by decide) (by decide) hpb⟩
